import Mathlib

set_option maxHeartbeats 1000000
set_option maxRecDepth 16000

/-! Formal model of the android-auto-headunit native transport core
    (app/src/main/cpp): channel classification, priority dispatcher,
    SPSC ring buffer, message framer, and the synchronous USB write path.
    Bytes are modelled as natural numbers; machine sizes do not overflow
    in any of the modelled code paths. -/

namespace AAH

/-! ## Channel ids and priorities, from aap_message.h.
    Channel ids are C `int`, modelled as `Int` (negative ids included). -/

namespace Channel

def ID_CTR : Int := 0

def ID_SEN : Int := 1

def ID_VID : Int := 2

def ID_INP : Int := 3

def ID_AU1 : Int := 4

def ID_AU2 : Int := 5

def ID_AUD : Int := 6

def ID_MIC : Int := 7

/-- Translation of `Channel::isAudio`. -/
def isAudio (channel : Int) : Bool :=
  channel == ID_AUD || channel == ID_AU1 || channel == ID_AU2

/-- Translation of `Channel::isVideo`. -/
def isVideo (channel : Int) : Bool :=
  channel == ID_VID

end Channel

inductive ChannelPriority where
  | HIGH
  | MEDIUM
  | NORMAL
deriving DecidableEq, Repr

/-- Translation of `getChannelPriority` (aap_message.h). -/
def getChannelPriority (channel : Int) : ChannelPriority :=
  if Channel.isAudio channel then ChannelPriority.HIGH
  else if Channel.isVideo channel then ChannelPriority.MEDIUM
  else ChannelPriority.NORMAL

/-! ## ChannelDispatcher, from channel_dispatcher.h / channel_dispatcher.cpp.
    Worker threads and condition variables are outside the model; we model the
    queue contents, the push path of `dispatch`, and the statistics counters.
    The front of `queue` is the oldest entry (`std::queue` pops the front). -/

structure QueuedMessage where
  channel : Int
  data : List Nat
deriving DecidableEq, Repr

structure MessageQueue where
  queue : List QueuedMessage
  maxSize : Nat
  shutdown : Bool
deriving DecidableEq, Repr

/-- Translation of `ChannelDispatcher::MessageQueue::push`.  On a full queue the
    source pops the oldest entry and returns false WITHOUT enqueuing the new
    message (`queue_.pop(); return false;`). -/
def MessageQueue.push (q : MessageQueue) (msg : QueuedMessage) : MessageQueue × Bool :=
  if q.shutdown then (q, false)
  else if q.maxSize ≤ q.queue.length then
    ({ q with queue := q.queue.drop 1 }, false)
  else
    ({ q with queue := q.queue ++ [msg] }, true)

structure Stats where
  audioMessagesDispatched : Nat
  videoMessagesDispatched : Nat
  controlMessagesDispatched : Nat
  audioQueueDrops : Nat
  videoQueueDrops : Nat
deriving DecidableEq, Repr

def AUDIO_QUEUE_SIZE : Nat := 64

def VIDEO_QUEUE_SIZE : Nat := 16

def CONTROL_QUEUE_SIZE : Nat := 32

structure ChannelDispatcher where
  audioQueue : MessageQueue
  videoQueue : MessageQueue
  controlQueue : MessageQueue
  stats : Stats
deriving DecidableEq, Repr

/-- A freshly constructed dispatcher (constructor plus zero-initialised stats). -/
def ChannelDispatcher.init : ChannelDispatcher :=
  { audioQueue := { queue := [], maxSize := AUDIO_QUEUE_SIZE, shutdown := false }
    videoQueue := { queue := [], maxSize := VIDEO_QUEUE_SIZE, shutdown := false }
    controlQueue := { queue := [], maxSize := CONTROL_QUEUE_SIZE, shutdown := false }
    stats := ⟨0, 0, 0, 0, 0⟩ }

/-- Translation of `ChannelDispatcher::dispatch`.  `dropped` is the negation of
    the push result; in the NORMAL branch the push result is ignored and the
    control dispatched counter is incremented unconditionally. -/
def ChannelDispatcher.dispatch (d : ChannelDispatcher) (channel : Int) (data : List Nat) :
    ChannelDispatcher :=
  let msg : QueuedMessage := { channel := channel, data := data }
  match getChannelPriority channel with
  | ChannelPriority.HIGH =>
      let r := d.audioQueue.push msg
      let dropped := !r.2
      if dropped then
        { d with audioQueue := r.1
                 stats := { d.stats with audioQueueDrops := d.stats.audioQueueDrops + 1 } }
      else
        { d with audioQueue := r.1
                 stats := { d.stats with
                              audioMessagesDispatched := d.stats.audioMessagesDispatched + 1 } }
  | ChannelPriority.MEDIUM =>
      let r := d.videoQueue.push msg
      let dropped := !r.2
      if dropped then
        { d with videoQueue := r.1
                 stats := { d.stats with videoQueueDrops := d.stats.videoQueueDrops + 1 } }
      else
        { d with videoQueue := r.1
                 stats := { d.stats with
                              videoMessagesDispatched := d.stats.videoMessagesDispatched + 1 } }
  | ChannelPriority.NORMAL =>
      let r := d.controlQueue.push msg
      { d with controlQueue := r.1
               stats := { d.stats with
                            controlMessagesDispatched := d.stats.controlMessagesDispatched + 1 } }

/-- A sequence of `dispatch` calls, oldest first. -/
def ChannelDispatcher.dispatchList (d : ChannelDispatcher) (calls : List (Int × List Nat)) :
    ChannelDispatcher :=
  calls.foldl (fun d c => d.dispatch c.1 c.2) d

/-! Measured along an actual run: how many calls truly enqueued into each class
    queue, how many hit a full queue, and how many were classified NORMAL. -/

def audioEnqueues : ChannelDispatcher → List (Int × List Nat) → Nat
  | _, [] => 0
  | d, c :: rest =>
      (if getChannelPriority c.1 = ChannelPriority.HIGH then
         (if (d.audioQueue.push ⟨c.1, c.2⟩).2 then 1 else 0)
       else 0)
        + audioEnqueues (d.dispatch c.1 c.2) rest

def audioOverflows : ChannelDispatcher → List (Int × List Nat) → Nat
  | _, [] => 0
  | d, c :: rest =>
      (if getChannelPriority c.1 = ChannelPriority.HIGH then
         (if d.audioQueue.maxSize ≤ d.audioQueue.queue.length then 1 else 0)
       else 0)
        + audioOverflows (d.dispatch c.1 c.2) rest

def videoEnqueues : ChannelDispatcher → List (Int × List Nat) → Nat
  | _, [] => 0
  | d, c :: rest =>
      (if getChannelPriority c.1 = ChannelPriority.MEDIUM then
         (if (d.videoQueue.push ⟨c.1, c.2⟩).2 then 1 else 0)
       else 0)
        + videoEnqueues (d.dispatch c.1 c.2) rest

def videoOverflows : ChannelDispatcher → List (Int × List Nat) → Nat
  | _, [] => 0
  | d, c :: rest =>
      (if getChannelPriority c.1 = ChannelPriority.MEDIUM then
         (if d.videoQueue.maxSize ≤ d.videoQueue.queue.length then 1 else 0)
       else 0)
        + videoOverflows (d.dispatch c.1 c.2) rest

def controlEnqueues : ChannelDispatcher → List (Int × List Nat) → Nat
  | _, [] => 0
  | d, c :: rest =>
      (if getChannelPriority c.1 = ChannelPriority.NORMAL then
         (if (d.controlQueue.push ⟨c.1, c.2⟩).2 then 1 else 0)
       else 0)
        + controlEnqueues (d.dispatch c.1 c.2) rest

def normalCalls : List (Int × List Nat) → Nat
  | [] => 0
  | c :: rest =>
      (if getChannelPriority c.1 = ChannelPriority.NORMAL then 1 else 0) + normalCalls rest

/-! ## Synchronous USB write path, from usb_connection.cpp.
    The libusb bulk-OUT transfer is abstracted as a function of the timeout and
    the data; the device-open test abstracts `deviceHandle_ != nullptr`. -/

def WRITE_TIMEOUT_MS : Nat := 1000

def LIBUSB_SUCCESS : Int := 0

def LIBUSB_ERROR_TIMEOUT : Int := -7

structure BulkTransferResult where
  rc : Int
  transferred : Nat
deriving DecidableEq, Repr

/-- Translation of `UsbConnection::write`: not-open returns -1; the transfer is
    invoked with the fixed timeout `WRITE_TIMEOUT_MS`; a status other than
    success or timeout returns -1; otherwise the transferred count is returned. -/
def UsbConnection.write (deviceOpen : Bool) (bulkOut : Nat → List Nat → BulkTransferResult)
    (data : List Nat) : Int :=
  if ¬deviceOpen then -1
  else
    let r := bulkOut WRITE_TIMEOUT_MS data
    if r.rc ≠ LIBUSB_SUCCESS ∧ r.rc ≠ LIBUSB_ERROR_TIMEOUT then -1
    else (r.transferred : Int)

/-! ## RingBuffer, from ring_buffer.cpp / ring_buffer.h.
    The byte array is modelled as a function from index to byte; `memcpy` into
    a range becomes a pointwise overwrite.  Head/tail positions are kept modulo
    the capacity exactly as in the source; one slot stays unused so that
    full and empty are distinguishable. -/

structure RingBuffer where
  capacity : Nat
  buffer : Nat → Nat
  writePos : Nat
  readPos : Nat

/-- Pointwise model of `memcpy(buffer + pos, data, data.length)`. -/
def memcpyAt (buf : Nat → Nat) (pos : Nat) (data : List Nat) (i : Nat) : Nat :=
  if pos ≤ i ∧ i < pos + data.length then data.getD (i - pos) 0 else buf i

/-- Translation of the constructor: zeroed storage, both positions at 0. -/
def RingBuffer.create (capacity : Nat) : RingBuffer :=
  { capacity := capacity, buffer := fun _ => 0, writePos := 0, readPos := 0 }

/-- Translation of `RingBuffer::write`: at most the free space is accepted, the
    copy wraps around the end of the array, and the write position advances
    modulo the capacity.  Returns the new state and the accepted count. -/
def RingBuffer.write (s : RingBuffer) (data : List Nat) : RingBuffer × Nat :=
  let currentRead := s.readPos
  let currentWrite := s.writePos
  let available :=
    if currentRead ≤ currentWrite then s.capacity - (currentWrite - currentRead) - 1
    else currentRead - currentWrite - 1
  let toWrite := min data.length available
  if toWrite = 0 then (s, 0)
  else
    let firstPart := min toWrite (s.capacity - currentWrite)
    let buf1 := memcpyAt s.buffer currentWrite (data.take firstPart)
    let buf2 :=
      if firstPart < toWrite then
        memcpyAt buf1 0 ((data.drop firstPart).take (toWrite - firstPart))
      else buf1
    ({ s with buffer := buf2, writePos := (currentWrite + toWrite) % s.capacity }, toWrite)

/-- Translation of `RingBuffer::read`: up to `maxLength` of the available bytes
    are removed and returned, wrapping around the end of the array. -/
def RingBuffer.read (s : RingBuffer) (maxLength : Nat) : RingBuffer × List Nat :=
  let currentWrite := s.writePos
  let currentRead := s.readPos
  let available :=
    if currentRead ≤ currentWrite then currentWrite - currentRead
    else s.capacity - currentRead + currentWrite
  let toRead := min maxLength available
  if toRead = 0 then (s, [])
  else
    let firstPart := min toRead (s.capacity - currentRead)
    let out := ((List.range firstPart).map fun i => s.buffer (currentRead + i))
        ++ ((List.range (toRead - firstPart)).map s.buffer)
    ({ s with readPos := (currentRead + toRead) % s.capacity }, out)

/-- Translation of `RingBuffer::available`. -/
def RingBuffer.available (s : RingBuffer) : Nat :=
  if s.readPos ≤ s.writePos then s.writePos - s.readPos
  else s.capacity - s.readPos + s.writePos

/-- Translation of `RingBuffer::freeSpace`. -/
def RingBuffer.freeSpace (s : RingBuffer) : Nat :=
  s.capacity - s.available - 1

/-- Well-formed ring state: positive capacity, positions inside the array. -/
def RingBuffer.WF (s : RingBuffer) : Prop :=
  1 ≤ s.capacity ∧ s.readPos < s.capacity ∧ s.writePos < s.capacity

instance (s : RingBuffer) : Decidable s.WF := by
  unfold RingBuffer.WF
  infer_instance

/-- The unread bytes in FIFO order (abstraction used to state the laws). -/
def RingBuffer.contents (s : RingBuffer) : List Nat :=
  (List.range s.available).map fun i => s.buffer ((s.readPos + i) % s.capacity)

/-- Proof-side repackaging of the buffer produced by `RingBuffer::write`
    (first memcpy up to the array end, second memcpy of the wrapped tail). -/
def writeBuf (s : RingBuffer) (data : List Nat) (n : Nat) : Nat → Nat :=
  let firstPart := min n (s.capacity - s.writePos)
  let buf1 := memcpyAt s.buffer s.writePos (data.take firstPart)
  if firstPart < n then memcpyAt buf1 0 ((data.drop firstPart).take (n - firstPart)) else buf1

/-- An interleaved sequence of producer writes and consumer reads. -/
inductive RingOp where
  | write (data : List Nat)
  | read (maxLength : Nat)
deriving DecidableEq, Repr

/-- Run a sequence of operations, collecting all bytes returned by the reads. -/
def RingBuffer.run (s : RingBuffer) : List RingOp → RingBuffer × List Nat
  | [] => (s, [])
  | RingOp.write data :: rest => (s.write data).1.run rest
  | RingOp.read n :: rest =>
      let r1 := s.read n
      let r := r1.1.run rest
      (r.1, r1.2 ++ r.2)

/-- All bytes passed to the writes of a sequence, in order. -/
def writesConcat : List RingOp → List Nat
  | [] => []
  | RingOp.write data :: rest => data ++ writesConcat rest
  | RingOp.read _ :: rest => writesConcat rest

/-- Every write of the sequence fits entirely in the free space at the moment
    it executes; equivalently, the number of unread bytes never exceeds
    capacity - 1 counting every byte handed to a write as unread. -/
def RingBuffer.fits (s : RingBuffer) : List RingOp → Bool
  | [] => true
  | RingOp.write data :: rest =>
      decide (data.length ≤ s.freeSpace) && (s.write data).1.fits rest
  | RingOp.read n :: rest => (s.read n).1.fits rest

/-! ## Message framer, from UsbConnection::processReceivedData
    (usb_connection.cpp:288-359).  Each `readBuffer_.read(dst, n)` removes the
    first `min n available` unread bytes in FIFO order (RingBuffer.read_spec),
    and the loop always runs until the ring is starved (pumpLoop_drain below),
    so the unread bytes are modelled directly as the byte queue `ring`. -/

structure FramerState where
  readingHeader : Bool
  headerBuf : List Nat
  messageExpected : Nat
  messageBuf : List Nat
deriving DecidableEq, Repr

/-- Initial framer state: awaiting a header, empty accumulators. -/
def FramerState.start : FramerState :=
  { readingHeader := true, headerBuf := [], messageExpected := 0, messageBuf := [] }

/-- Translation of the flag check `(flags & 0x08) == 0x08` on a completed
    4-byte header (byte 1 is the flags byte). -/
def headerFlagsValid (hb : List Nat) : Bool :=
  hb.getD 1 0 &&& 8 == 8

/-- Translation of the big-endian body-length decode
    `(headerBuf_[2] << 8) | headerBuf_[3]`. -/
def headerEncLen (hb : List Nat) : Nat :=
  hb.getD 2 0 * 256 + hb.getD 3 0

/-- Translation of the length check `encLen > 65535` that resets the whole
    header accumulator. -/
def headerInvalidLength (hb : List Nat) : Bool :=
  decide (65535 < headerEncLen hb)

/-- Body-reading phase of one loop iteration (usb_connection.cpp:338-358).
    The fill counter `messagePos_` is represented as `messageBuf.length - 4`:
    `messageBuf` always holds the 4 header bytes plus the body bytes read so
    far.  Returns `inl` on break (body incomplete) and `inr` with the
    dispatched message (channel = messageBuf[0], bytes = header ++ body) once
    the body is complete, with `readingHeader` set back to true. -/
def bodyPhase (s : FramerState) (ring : List Nat) :
    (FramerState × List Nat) ⊕ (FramerState × List Nat × (Nat × List Nat)) :=
  let needed := s.messageExpected - (s.messageBuf.length - 4)
  let got := min needed ring.length
  let buf := s.messageBuf ++ ring.take got
  let ring' := ring.drop got
  if buf.length - 4 < s.messageExpected then
    Sum.inl ({ s with messageBuf := buf }, ring')
  else
    Sum.inr ({ s with readingHeader := true, messageBuf := buf }, ring',
             (buf.getD 0 0, buf))

/-- The `while (true)` loop of processReceivedData, with explicit fuel.
    Every non-breaking iteration consumes at least one byte of `ring`, so
    `ring.length + 1` fuel always suffices (pumpLoop_fuel below).  Messages
    dispatched to the ChannelDispatcher are accumulated in order in `acc`. -/
def pumpLoop : Nat → FramerState → List Nat → List (Nat × List Nat) →
    FramerState × List Nat × List (Nat × List Nat)
  | 0, s, ring, acc => (s, ring, acc)
  | fuel + 1, s, ring, acc =>
    if s.readingHeader then
      let needed := 4 - s.headerBuf.length
      let got := min needed ring.length
      let hb := s.headerBuf ++ ring.take got
      let ring' := ring.drop got
      if hb.length < 4 then ({ s with headerBuf := hb }, ring', acc)
      else if headerFlagsValid hb = false then
        pumpLoop fuel { s with headerBuf := hb.drop 1 } ring' acc
      else if headerInvalidLength hb then
        pumpLoop fuel { s with headerBuf := [] } ring' acc
      else
        match bodyPhase ⟨false, [], headerEncLen hb, hb⟩ ring' with
        | Sum.inl (s', r') => (s', r', acc)
        | Sum.inr (s', r', m) => pumpLoop fuel s' r' (acc ++ [m])
    else
      match bodyPhase s ring with
      | Sum.inl (s', r') => (s', r', acc)
      | Sum.inr (s', r', m) => pumpLoop fuel s' r' (acc ++ [m])

/-- Proof-side repackaging of the loop continuation once a 4-byte header `HB`
    has been accumulated: validate the flags, validate the length, otherwise
    enter the body phase (see pumpLoop_header_dispatch). -/
def headerDispatch (fuel : Nat) (s : FramerState) (HB R : List Nat)
    (acc : List (Nat × List Nat)) : FramerState × List Nat × List (Nat × List Nat) :=
  if headerFlagsValid HB = false then
    pumpLoop fuel { s with headerBuf := HB.drop 1 } R acc
  else if headerInvalidLength HB then
    pumpLoop fuel { s with headerBuf := [] } R acc
  else
    match bodyPhase ⟨false, [], headerEncLen HB, HB⟩ R with
    | Sum.inl (s', r') => (s', r', acc)
    | Sum.inr (s', r', m) => pumpLoop fuel s' r' (acc ++ [m])

/-- Size of the receive ring buffer (usb_connection.cpp:14). -/
def READ_BUFFER_SIZE : Nat := 512 * 1024

/-- One processReceivedData call (usb_connection.cpp:288-359): the incoming
    bytes are first written to the 512 KiB receive ring, which stores at most
    capacity - 1 = 524287 bytes and silently drops the excess
    (usb_connection.cpp:290-293 with RingBuffer.write's freeSpace truncation).
    The loop always drains the ring before returning (pumpLoop_fuel), so the
    ring is empty when a call begins and the bytes stored are exactly the
    first freeSpace() bytes of the chunk.  The loop then runs until starved;
    the call returns the new framer state and the dispatched messages. -/
def processReceivedData (s : FramerState) (data : List Nat) :
    FramerState × List (Nat × List Nat) :=
  let stored := data.take (READ_BUFFER_SIZE - 1)
  let r := pumpLoop (stored.length + 1) s stored []
  (r.1, r.2.2)

/-- Proof-side: the message-assembly loop of a call alone, on all the handed
    bytes, without the ring-capacity truncation.  A call whose chunk fits in
    the ring (at most READ_BUFFER_SIZE - 1 bytes) behaves exactly like
    pumpAll; a longer call first loses the excess bytes (see
    framer_single_call_truncates). -/
def pumpAll (p : FramerState × List (Nat × List Nat)) (data : List Nat) :
    FramerState × List (Nat × List Nat) :=
  let r := pumpLoop (data.length + 1) p.1 data []
  (r.1, p.2 ++ r.2.2)

/-- Feed one chunk, accumulating the dispatched messages across calls. -/
def feed (p : FramerState × List (Nat × List Nat)) (data : List Nat) :
    FramerState × List (Nat × List Nat) :=
  let r := processReceivedData p.1 data
  (r.1, p.2 ++ r.2)

/-- Feed a sequence of chunks. -/
def feedAll (p : FramerState × List (Nat × List Nat)) (chunks : List (List Nat)) :
    FramerState × List (Nat × List Nat) :=
  chunks.foldl feed p

/-- Framer states reachable at loop boundaries: the header accumulator is
    never full while awaiting a header, and while awaiting a body the header
    accumulator is empty and the body is strictly incomplete. -/
def FramerInv (s : FramerState) : Prop :=
  (s.readingHeader = true → s.headerBuf.length ≤ 3)
  ∧ (s.readingHeader = false →
      s.headerBuf = [] ∧ 4 ≤ s.messageBuf.length
      ∧ s.messageBuf.length - 4 < s.messageExpected)

instance (s : FramerState) : Decidable (FramerInv s) := by
  unfold FramerInv
  infer_instance

/-! ## Helper lemmas about the dispatcher -/

theorem MessageQueue.push_shutdown (q : MessageQueue) (m : QueuedMessage) :
    ((q.push m).1).shutdown = q.shutdown := by
  unfold MessageQueue.push
  split <;> [rfl; split <;> rfl]

theorem MessageQueue.push_maxSize (q : MessageQueue) (m : QueuedMessage) :
    ((q.push m).1).maxSize = q.maxSize := by
  unfold MessageQueue.push
  split <;> [rfl; split <;> rfl]

theorem MessageQueue.push_false_iff (q : MessageQueue) (m : QueuedMessage)
    (h : q.shutdown = false) :
    (q.push m).2 = false ↔ q.maxSize ≤ q.queue.length := by
  unfold MessageQueue.push
  simp only [h]
  split_ifs <;> simp_all

theorem ChannelDispatcher.dispatch_queue_shutdowns (d : ChannelDispatcher) (c : Int)
    (data : List Nat) :
    ((d.dispatch c data).audioQueue.shutdown = d.audioQueue.shutdown)
      ∧ ((d.dispatch c data).videoQueue.shutdown = d.videoQueue.shutdown)
      ∧ ((d.dispatch c data).controlQueue.shutdown = d.controlQueue.shutdown) := by
  unfold ChannelDispatcher.dispatch
  cases getChannelPriority c <;>
    simp only [] <;>
    refine ⟨?_, ?_, ?_⟩ <;>
    first
      | (split <;> simp [MessageQueue.push_shutdown])
      | simp [MessageQueue.push_shutdown]

/-- Per-step accounting for `dispatch`, with no shutdown in effect. -/
theorem ChannelDispatcher.dispatch_stats_step (d : ChannelDispatcher) (c : Int)
    (data : List Nat)
    (ha : d.audioQueue.shutdown = false) (hv : d.videoQueue.shutdown = false)
    (hc : d.controlQueue.shutdown = false) :
    (d.dispatch c data).stats.audioMessagesDispatched
        = d.stats.audioMessagesDispatched
            + (if getChannelPriority c = ChannelPriority.HIGH then
                 (if (d.audioQueue.push ⟨c, data⟩).2 then 1 else 0) else 0)
      ∧ (d.dispatch c data).stats.audioQueueDrops
        = d.stats.audioQueueDrops
            + (if getChannelPriority c = ChannelPriority.HIGH then
                 (if d.audioQueue.maxSize ≤ d.audioQueue.queue.length then 1 else 0) else 0)
      ∧ (d.dispatch c data).stats.videoMessagesDispatched
        = d.stats.videoMessagesDispatched
            + (if getChannelPriority c = ChannelPriority.MEDIUM then
                 (if (d.videoQueue.push ⟨c, data⟩).2 then 1 else 0) else 0)
      ∧ (d.dispatch c data).stats.videoQueueDrops
        = d.stats.videoQueueDrops
            + (if getChannelPriority c = ChannelPriority.MEDIUM then
                 (if d.videoQueue.maxSize ≤ d.videoQueue.queue.length then 1 else 0) else 0)
      ∧ (d.dispatch c data).stats.controlMessagesDispatched
        = d.stats.controlMessagesDispatched
            + (if getChannelPriority c = ChannelPriority.NORMAL then 1 else 0) := by
  unfold ChannelDispatcher.dispatch
  rcases hpr : getChannelPriority c with _ | _ | _ <;> simp only [hpr]
  · rcases hp : (d.audioQueue.push ⟨c, data⟩).2 with _ | _
    · have hfull : d.audioQueue.maxSize ≤ d.audioQueue.queue.length :=
        (MessageQueue.push_false_iff _ _ ha).1 hp
      simp [hp, hfull]
    · have hnotfull : ¬ d.audioQueue.maxSize ≤ d.audioQueue.queue.length := by
        intro hle
        have := (MessageQueue.push_false_iff d.audioQueue ⟨c, data⟩ ha).2 hle
        simp [this] at hp
      simp [hp, hnotfull]
  · rcases hp : (d.videoQueue.push ⟨c, data⟩).2 with _ | _
    · have hfull : d.videoQueue.maxSize ≤ d.videoQueue.queue.length :=
        (MessageQueue.push_false_iff _ _ hv).1 hp
      simp [hp, hfull]
    · have hnotfull : ¬ d.videoQueue.maxSize ≤ d.videoQueue.queue.length := by
        intro hle
        have := (MessageQueue.push_false_iff d.videoQueue ⟨c, data⟩ hv).2 hle
        simp [this] at hp
      simp [hp, hnotfull]
  · simp

/-! ## Helper lemmas about the ring buffer -/

theorem getD_eq_getElem {α : Type} (l : List α) (a : α) {n : Nat} (h : n < l.length) :
    l.getD n a = l[n] := by
  simp [List.getD_eq_getElem?_getD, List.getElem?_eq_getElem h]

theorem getD_take (l : List Nat) (m i : Nat) (h : i < m) :
    (l.take m).getD i 0 = l.getD i 0 := by
  rcases Nat.lt_or_ge i l.length with hi | hi
  · rw [getD_eq_getElem _ _ (show i < (l.take m).length by rw [List.length_take]; omega),
      getD_eq_getElem _ _ hi]
    simp [List.getElem_take]
  · rw [List.getD_eq_getElem?_getD, List.getD_eq_getElem?_getD,
      List.getElem?_eq_none (by rw [List.length_take]; omega),
      List.getElem?_eq_none (by omega)]

theorem getD_drop (l : List Nat) (m i : Nat) :
    (l.drop m).getD i 0 = l.getD (m + i) 0 := by
  rcases Nat.lt_or_ge (m + i) l.length with hi | hi
  · rw [getD_eq_getElem _ _ (show i < (l.drop m).length by rw [List.length_drop]; omega),
      getD_eq_getElem _ _ hi]
    simp [List.getElem_drop]
  · rw [List.getD_eq_getElem?_getD, List.getD_eq_getElem?_getD,
      List.getElem?_eq_none (by rw [List.length_drop]; omega),
      List.getElem?_eq_none (by omega)]

theorem mod_two_cases (x c : Nat) (hc : 0 < c) (hx : x < 2 * c) :
    x % c = if x < c then x else x - c := by
  split_ifs with h
  · exact Nat.mod_eq_of_lt h
  · rw [Nat.mod_eq_sub_mod (by omega)]
    exact Nat.mod_eq_of_lt (by omega)

theorem mod_add_cancel (c r x y : Nat) (hx : x < c) (hy : y < c)
    (h : (r + x) % c = (r + y) % c) : x = y := by
  have h1 : x ≡ y [MOD c] := Nat.ModEq.add_left_cancel' r h
  have h2 : x % c = y % c := h1
  rwa [Nat.mod_eq_of_lt hx, Nat.mod_eq_of_lt hy] at h2

theorem RingBuffer.available_lt (s : RingBuffer) (h : s.WF) : s.available < s.capacity := by
  obtain ⟨h1, h2, h3⟩ := h
  simp only [RingBuffer.available]
  split_ifs <;> omega

theorem RingBuffer.contents_length (s : RingBuffer) : s.contents.length = s.available := by
  simp [RingBuffer.contents]

theorem RingBuffer.contents_getElem (s : RingBuffer) (i : Nat) (h : i < s.contents.length) :
    s.contents[i] = s.buffer ((s.readPos + i) % s.capacity) := by
  simp [RingBuffer.contents]

theorem RingBuffer.readPos_add_available (s : RingBuffer) (h : s.WF) :
    (s.readPos + s.available) % s.capacity = s.writePos := by
  obtain ⟨h1, h2, h3⟩ := h
  simp only [RingBuffer.available]
  split_ifs with hle
  · have he : s.readPos + (s.writePos - s.readPos) = s.writePos := by omega
    rw [he, Nat.mod_eq_of_lt h3]
  · have he : s.readPos + (s.capacity - s.readPos + s.writePos)
        = s.capacity + s.writePos := by omega
    rw [he, Nat.add_mod_left, Nat.mod_eq_of_lt h3]

theorem RingBuffer.write_eq (s : RingBuffer) (data : List Nat) (hwf : s.WF) :
    s.write data =
      if min data.length s.freeSpace = 0 then (s, 0)
      else ({ s with
                buffer := writeBuf s data (min data.length s.freeSpace)
                writePos := (s.writePos + min data.length s.freeSpace) % s.capacity },
            min data.length s.freeSpace) := by
  obtain ⟨hc, hr, hw⟩ := hwf
  have hfs : (if s.readPos ≤ s.writePos then s.capacity - (s.writePos - s.readPos) - 1
      else s.readPos - s.writePos - 1) = s.freeSpace := by
    simp only [RingBuffer.freeSpace, RingBuffer.available]
    split_ifs <;> omega
  simp only [RingBuffer.write, writeBuf, hfs]

theorem RingBuffer.writeBuf_window (s : RingBuffer) (data : List Nat) (n : Nat) (hwf : s.WF)
    (hn : n ≤ s.freeSpace) (hlen : n ≤ data.length) (k : Nat) (hk : k < n) :
    writeBuf s data n ((s.writePos + k) % s.capacity) = data.getD k 0 := by
  obtain ⟨hc, hr, hw⟩ := hwf
  have hA := RingBuffer.available_lt s ⟨hc, hr, hw⟩
  have hfree : s.available + n ≤ s.capacity - 1 := by
    have hfs : s.freeSpace = s.capacity - s.available - 1 := rfl
    omega
  have hcapn : n ≤ s.capacity - 1 := by omega
  simp only [writeBuf]
  set fp := min n (s.capacity - s.writePos) with hfpdef
  have hfple : fp ≤ n := Nat.min_le_left _ _
  have hfpcap : fp ≤ s.capacity - s.writePos := Nat.min_le_right _ _
  have hmin : fp = n ∨ fp = s.capacity - s.writePos := by
    rcases Nat.le_total n (s.capacity - s.writePos) with h | h
    · exact Or.inl (Nat.min_eq_left h)
    · exact Or.inr (Nat.min_eq_right h)
  have htklen : (data.take fp).length = fp := by
    rw [List.length_take]
    omega
  have hlen2 : ((data.drop fp).take (n - fp)).length = n - fp := by
    rw [List.length_take, List.length_drop]
    omega
  have hfirst : ∀ hkfp : k < fp,
      memcpyAt s.buffer s.writePos (data.take fp) (s.writePos + k) = data.getD k 0 := by
    intro hkfp
    rw [memcpyAt]
    rw [if_pos (show s.writePos ≤ s.writePos + k
          ∧ s.writePos + k < s.writePos + (data.take fp).length by rw [htklen]; omega)]
    have hsub : s.writePos + k - s.writePos = k := by omega
    rw [hsub]
    exact getD_take data fp k hkfp
  rw [mod_two_cases _ _ (by omega) (by omega)]
  rcases Nat.lt_or_ge (s.writePos + k) s.capacity with hlt | hge
  · rw [if_pos hlt]
    have hkfp : k < fp := by
      rcases hmin with h | h <;> omega
    by_cases hsplit : fp < n
    · rw [if_pos hsplit]
      have hfpeq : fp = s.capacity - s.writePos := by
        rcases hmin with h | h <;> omega
      rw [memcpyAt]
      rw [if_neg (show ¬ (0 ≤ s.writePos + k
            ∧ s.writePos + k < 0 + ((data.drop fp).take (n - fp)).length) by
          rw [hlen2]; omega)]
      exact hfirst hkfp
    · rw [if_neg hsplit]
      exact hfirst hkfp
  · rw [if_neg (show ¬ s.writePos + k < s.capacity by omega)]
    have hfpeq : fp = s.capacity - s.writePos := by
      rcases hmin with h | h <;> omega
    have hsplit : fp < n := by omega
    rw [if_pos hsplit]
    rw [memcpyAt]
    rw [if_pos (show 0 ≤ s.writePos + k - s.capacity
          ∧ s.writePos + k - s.capacity < 0 + ((data.drop fp).take (n - fp)).length by
        rw [hlen2]; omega)]
    have hp : s.writePos + k - s.capacity - 0 = k - fp := by omega
    rw [hp]
    rw [getD_take _ _ _ (by omega), getD_drop]
    have hkfp2 : fp + (k - fp) = k := by omega
    rw [hkfp2]

theorem RingBuffer.writeBuf_outside (s : RingBuffer) (data : List Nat) (n : Nat) (hwf : s.WF)
    (hn : n ≤ s.freeSpace) (hlen : n ≤ data.length) (p : Nat) (hp : p < s.capacity)
    (hout : ∀ k, k < n → p ≠ (s.writePos + k) % s.capacity) :
    writeBuf s data n p = s.buffer p := by
  obtain ⟨hc, hr, hw⟩ := hwf
  have hA := RingBuffer.available_lt s ⟨hc, hr, hw⟩
  have hfree : s.available + n ≤ s.capacity - 1 := by
    have hfs : s.freeSpace = s.capacity - s.available - 1 := rfl
    omega
  simp only [writeBuf]
  set fp := min n (s.capacity - s.writePos) with hfpdef
  have hfple : fp ≤ n := Nat.min_le_left _ _
  have hfpcap : fp ≤ s.capacity - s.writePos := Nat.min_le_right _ _
  have htklen : (data.take fp).length = fp := by
    simp [List.length_take]
    omega
  have hout1 : ¬ (s.writePos ≤ p ∧ p < s.writePos + (data.take fp).length) := by
    rw [htklen]
    rintro ⟨hp1, hp2⟩
    have hkfp : p - s.writePos < fp := by omega
    refine hout (p - s.writePos) (by omega) ?_
    rw [Nat.mod_eq_of_lt (by omega)]
    omega
  split_ifs with hsplit
  · have hfpeq : fp = s.capacity - s.writePos := by
      rcases Nat.eq_or_lt_of_le hfple with h | h
      · omega
      · have := Nat.min_eq_right (a := n) (b := s.capacity - s.writePos) (by omega)
        omega
    have hlen2 : ((data.drop fp).take (n - fp)).length = n - fp := by
      simp [List.length_take, List.length_drop]
      omega
    have hout2 : ¬ (0 ≤ p ∧ p < 0 + ((data.drop fp).take (n - fp)).length) := by
      rw [hlen2]
      rintro ⟨-, hp2⟩
      refine hout (fp + p) (by omega) ?_
      have he : s.writePos + (fp + p) = s.capacity + p := by omega
      rw [he, Nat.add_mod_left, Nat.mod_eq_of_lt hp]
    rw [memcpyAt, if_neg hout2, memcpyAt, if_neg hout1]
  · rw [memcpyAt, if_neg hout1]

theorem RingBuffer.available_advance (s : RingBuffer) (n : Nat) (hwf : s.WF)
    (h : s.available + n ≤ s.capacity - 1) (buf : Nat → Nat) :
    RingBuffer.available
        { s with buffer := buf, writePos := (s.writePos + n) % s.capacity }
      = s.available + n := by
  obtain ⟨hc, hr, hw⟩ := hwf
  have hA := RingBuffer.available_lt s ⟨hc, hr, hw⟩
  have hsrc : s.available = (if s.readPos ≤ s.writePos then s.writePos - s.readPos
      else s.capacity - s.readPos + s.writePos) := rfl
  simp only [RingBuffer.available]
  rw [mod_two_cases _ _ (by omega) (by omega)]
  rw [hsrc] at h
  split_ifs at h ⊢ <;> omega

theorem RingBuffer.available_retreat (s : RingBuffer) (t : Nat) (hwf : s.WF)
    (h : t ≤ s.available) :
    RingBuffer.available { s with readPos := (s.readPos + t) % s.capacity }
      = s.available - t := by
  obtain ⟨hc, hr, hw⟩ := hwf
  have hA := RingBuffer.available_lt s ⟨hc, hr, hw⟩
  have hsrc : s.available = (if s.readPos ≤ s.writePos then s.writePos - s.readPos
      else s.capacity - s.readPos + s.writePos) := rfl
  simp only [RingBuffer.available]
  rw [mod_two_cases _ _ (by omega) (by omega)]
  rw [hsrc] at h
  split_ifs at h ⊢ <;> omega

theorem RingBuffer.write_spec (s : RingBuffer) (data : List Nat) (hwf : s.WF) :
    (s.write data).2 = min data.length s.freeSpace
  ∧ (s.write data).1.capacity = s.capacity
  ∧ (s.write data).1.readPos = s.readPos
  ∧ RingBuffer.WF (s.write data).1
  ∧ (s.write data).1.contents = s.contents ++ data.take (min data.length s.freeSpace) := by
  obtain ⟨hc, hr, hw⟩ := hwf
  have hA := RingBuffer.available_lt s ⟨hc, hr, hw⟩
  rw [RingBuffer.write_eq s data ⟨hc, hr, hw⟩]
  set n := min data.length s.freeSpace with hn
  have hnfs : n ≤ s.freeSpace := Nat.min_le_right _ _
  have hnlen : n ≤ data.length := Nat.min_le_left _ _
  have hfree : s.available + n ≤ s.capacity - 1 := by
    have hfs : s.freeSpace = s.capacity - s.available - 1 := rfl
    omega
  by_cases h0 : n = 0
  · rw [if_pos h0]
    refine ⟨h0.symm, rfl, rfl, ⟨hc, hr, hw⟩, ?_⟩
    rw [h0]
    simp
  · rw [if_neg h0]
    set s' : RingBuffer :=
      { s with
          buffer := writeBuf s data n
          writePos := (s.writePos + n) % s.capacity } with hs'
    have hs'cap : s'.capacity = s.capacity := rfl
    have hs'read : s'.readPos = s.readPos := rfl
    have hwf' : RingBuffer.WF s' := by
      refine ⟨hc, hr, ?_⟩
      exact Nat.mod_lt _ (by omega)
    have havail' : s'.available = s.available + n := by
      rw [hs']
      exact RingBuffer.available_advance s n ⟨hc, hr, hw⟩ (by omega) (writeBuf s data n)
    refine ⟨rfl, rfl, rfl, hwf', ?_⟩
    apply List.ext_getElem
    · rw [RingBuffer.contents_length, havail']
      rw [List.length_append, RingBuffer.contents_length, List.length_take]
      omega
    · intro i h1 h2
      rw [RingBuffer.contents_getElem s' i h1]
      have hi : i < s.available + n := by
        rw [RingBuffer.contents_length, havail'] at h1
        exact h1
      rcases Nat.lt_or_ge i s.available with hlo | hhi
      · rw [List.getElem_append_left (by rw [RingBuffer.contents_length]; exact hlo)]
        rw [RingBuffer.contents_getElem s i (by rw [RingBuffer.contents_length]; exact hlo)]
        rw [hs'read, hs'cap]
        refine RingBuffer.writeBuf_outside s data n ⟨hc, hr, hw⟩ hnfs hnlen _
          (Nat.mod_lt _ (by omega)) ?_
        intro k hkn heq
        have hwexp : (s.readPos + (s.available + k)) % s.capacity
            = (s.writePos + k) % s.capacity := by
          rw [← Nat.add_assoc]
          conv_lhs => rw [← Nat.mod_add_mod]
          rw [RingBuffer.readPos_add_available s ⟨hc, hr, hw⟩]
        rw [← hwexp] at heq
        have := mod_add_cancel s.capacity s.readPos i (s.available + k)
          (by omega) (by omega) heq
        omega
      · rw [List.getElem_append_right (by rw [RingBuffer.contents_length]; exact hhi)]
        rw [hs'read, hs'cap]
        have hiwin : (s.readPos + i) % s.capacity
            = (s.writePos + (i - s.available)) % s.capacity := by
          have he : s.readPos + i = s.readPos + s.available + (i - s.available) := by omega
          rw [he]
          conv_lhs => rw [← Nat.mod_add_mod]
          rw [RingBuffer.readPos_add_available s ⟨hc, hr, hw⟩]
        rw [hiwin]
        have hs'buf : s'.buffer = writeBuf s data n := rfl
        rw [hs'buf]
        rw [RingBuffer.writeBuf_window s data n ⟨hc, hr, hw⟩ hnfs hnlen (i - s.available)
          (by omega)]
        rw [getD_eq_getElem _ _ (show i - s.available < data.length by omega)]
        simp [List.getElem_take, RingBuffer.contents_length]

theorem RingBuffer.read_spec (s : RingBuffer) (m : Nat) (hwf : s.WF) :
    (s.read m).2 = s.contents.take (min m s.available)
  ∧ (s.read m).1.capacity = s.capacity
  ∧ (s.read m).1.writePos = s.writePos
  ∧ (s.read m).1.buffer = s.buffer
  ∧ RingBuffer.WF (s.read m).1
  ∧ (s.read m).1.contents = s.contents.drop (min m s.available) := by
  obtain ⟨hc, hr, hw⟩ := hwf
  have hA := RingBuffer.available_lt s ⟨hc, hr, hw⟩
  have hav : (if s.readPos ≤ s.writePos then s.writePos - s.readPos
      else s.capacity - s.readPos + s.writePos) = s.available := rfl
  simp only [RingBuffer.read, hav]
  set t := min m s.available with ht
  have htA : t ≤ s.available := Nat.min_le_right _ _
  by_cases h0 : t = 0
  · rw [if_pos h0, h0]
    exact ⟨by simp, rfl, rfl, rfl, ⟨hc, hr, hw⟩, by simp⟩
  · rw [if_neg h0]
    set fp := min t (s.capacity - s.readPos) with hfp
    have hfple : fp ≤ t := Nat.min_le_left _ _
    have hfpcap : fp ≤ s.capacity - s.readPos := Nat.min_le_right _ _
    set s' : RingBuffer := { s with readPos := (s.readPos + t) % s.capacity } with hs'
    have hwf' : RingBuffer.WF s' := ⟨hc, Nat.mod_lt _ (by omega), hw⟩
    have havail' : s'.available = s.available - t := by
      rw [hs']
      exact RingBuffer.available_retreat s t ⟨hc, hr, hw⟩ (by omega)
    refine ⟨?_, rfl, rfl, rfl, hwf', ?_⟩
    · -- the returned bytes are the first t unread bytes
      show ((List.range fp).map fun i => s.buffer (s.readPos + i))
          ++ (List.range (t - fp)).map s.buffer = s.contents.take t
      apply List.ext_getElem
      · simp [RingBuffer.contents_length]
        omega
      · intro k h1 h2
        have hk : k < t := by
          simp at h1
          omega
        rw [List.getElem_take]
        rw [RingBuffer.contents_getElem s k (by rw [RingBuffer.contents_length]; omega)]
        rcases Nat.lt_or_ge k fp with hlt | hge
        · rw [List.getElem_append_left (by simp; exact hlt)]
          rw [List.getElem_map]
          rw [List.getElem_range]
          rw [Nat.mod_eq_of_lt (by omega)]
        · rw [List.getElem_append_right (by simp; exact hge)]
          rw [List.getElem_map]
          have hfpeq : fp = s.capacity - s.readPos := by
            rcases Nat.eq_or_lt_of_le hfple with h | h
            · omega
            · have := Nat.min_eq_right (a := t) (b := s.capacity - s.readPos) (by omega)
              omega
          rw [mod_two_cases _ _ (by omega) (by omega)]
          rw [if_neg (by omega)]
          simp only [List.length_map, List.length_range, List.getElem_range]
          congr 1
          omega
    · -- the remaining bytes are the rest
      show s'.contents = s.contents.drop t
      apply List.ext_getElem
      · rw [RingBuffer.contents_length, havail', List.length_drop,
          RingBuffer.contents_length]
      · intro i h1 h2
        rw [RingBuffer.contents_getElem s' i h1]
        rw [List.getElem_drop]
        rw [RingBuffer.contents_getElem s (t + i) (by
          rw [RingBuffer.contents_length]
          rw [RingBuffer.contents_length, havail'] at h1
          omega)]
        have he : s'.readPos = (s.readPos + t) % s.capacity := rfl
        have hcap' : s'.capacity = s.capacity := rfl
        rw [he, hcap', Nat.mod_add_mod, Nat.add_assoc]

/-- WF and the round-trip invariant are preserved along any fitting run: the
    bytes read so far followed by the bytes still buffered equal the bytes
    initially buffered followed by all bytes written. -/
theorem RingBuffer.run_spec (ops : List RingOp) :
    ∀ s : RingBuffer, s.WF → s.fits ops = true →
      RingBuffer.WF (s.run ops).1
      ∧ (s.run ops).2 ++ (s.run ops).1.contents = s.contents ++ writesConcat ops := by
  induction ops with
  | nil =>
      intro s hwf _
      exact ⟨hwf, by simp [RingBuffer.run, writesConcat]⟩
  | cons op rest ih =>
      intro s hwf hfit
      cases op with
      | write data =>
          rw [RingBuffer.fits, Bool.and_eq_true, decide_eq_true_iff] at hfit
          obtain ⟨hlen, hrest⟩ := hfit
          have hws := RingBuffer.write_spec s data hwf
          have hmin : min data.length s.freeSpace = data.length := Nat.min_eq_left hlen
          have ih' := ih (s.write data).1 hws.2.2.2.1 hrest
          refine ⟨ih'.1, ?_⟩
          have hrun : s.run (RingOp.write data :: rest) = (s.write data).1.run rest := rfl
          rw [hrun, ih'.2, hws.2.2.2.2, hmin, writesConcat]
          simp
      | read maxLength =>
          rw [RingBuffer.fits] at hfit
          have hrs := RingBuffer.read_spec s maxLength hwf
          have ih' := ih (s.read maxLength).1 hrs.2.2.2.2.1 hfit
          refine ⟨ih'.1, ?_⟩
          have hrun : s.run (RingOp.read maxLength :: rest)
              = ((s.read maxLength).1.run rest |>.1,
                 (s.read maxLength).2 ++ ((s.read maxLength).1.run rest).2) := rfl
          rw [hrun]
          simp only []
          rw [List.append_assoc, ih'.2, hrs.1, hrs.2.2.2.2.2, writesConcat]
          rw [← List.append_assoc, List.take_append_drop]

/-! ## Helper lemmas about the framer -/

theorem bodyPhase_starved (s : FramerState) (ring : List Nat)
    (h4 : 4 ≤ s.messageBuf.length)
    (h : ring.length < s.messageExpected - (s.messageBuf.length - 4)) :
    bodyPhase s ring = Sum.inl ({ s with messageBuf := s.messageBuf ++ ring }, []) := by
  simp only [bodyPhase]
  have hmin : min (s.messageExpected - (s.messageBuf.length - 4)) ring.length
      = ring.length := Nat.min_eq_right (by omega)
  rw [hmin, List.take_length, List.drop_length]
  rw [if_pos (by rw [List.length_append]; omega)]

theorem bodyPhase_complete (s : FramerState) (ring : List Nat)
    (h4 : 4 ≤ s.messageBuf.length)
    (hle : s.messageBuf.length - 4 ≤ s.messageExpected)
    (h : s.messageExpected - (s.messageBuf.length - 4) ≤ ring.length) :
    bodyPhase s ring = Sum.inr
      ({ s with
           readingHeader := true
           messageBuf := s.messageBuf
             ++ ring.take (s.messageExpected - (s.messageBuf.length - 4)) },
       ring.drop (s.messageExpected - (s.messageBuf.length - 4)),
       ((s.messageBuf ++ ring.take (s.messageExpected - (s.messageBuf.length - 4))).getD 0 0,
        s.messageBuf ++ ring.take (s.messageExpected - (s.messageBuf.length - 4)))) := by
  simp only [bodyPhase]
  have hmin : min (s.messageExpected - (s.messageBuf.length - 4)) ring.length
      = s.messageExpected - (s.messageBuf.length - 4) := Nat.min_eq_left h
  rw [hmin]
  rw [if_neg (by rw [List.length_append, List.length_take]; omega)]

theorem pumpLoop_header_starved (fuel : Nat) (s : FramerState) (ring : List Nat)
    (acc : List (Nat × List Nat)) (hrh : s.readingHeader = true)
    (hhb : s.headerBuf.length ≤ 3) (h : ring.length < 4 - s.headerBuf.length) :
    pumpLoop (fuel + 1) s ring acc
      = ({ s with headerBuf := s.headerBuf ++ ring }, [], acc) := by
  simp only [pumpLoop]
  rw [if_pos hrh]
  have hmin : min (4 - s.headerBuf.length) ring.length = ring.length :=
    Nat.min_eq_right (by omega)
  rw [hmin, List.take_length, List.drop_length]
  rw [if_pos (by rw [List.length_append]; omega)]

theorem pumpLoop_header_complete (fuel : Nat) (s : FramerState) (ring : List Nat)
    (acc : List (Nat × List Nat)) (hrh : s.readingHeader = true)
    (hhb : s.headerBuf.length ≤ 3) (h : 4 - s.headerBuf.length ≤ ring.length) :
    pumpLoop (fuel + 1) s ring acc =
      (if headerFlagsValid (s.headerBuf ++ ring.take (4 - s.headerBuf.length)) = false then
         pumpLoop fuel
           { s with headerBuf := (s.headerBuf ++ ring.take (4 - s.headerBuf.length)).drop 1 }
           (ring.drop (4 - s.headerBuf.length)) acc
       else if headerInvalidLength (s.headerBuf ++ ring.take (4 - s.headerBuf.length)) then
         pumpLoop fuel { s with headerBuf := [] } (ring.drop (4 - s.headerBuf.length)) acc
       else
         match bodyPhase
             ⟨false, [], headerEncLen (s.headerBuf ++ ring.take (4 - s.headerBuf.length)),
              s.headerBuf ++ ring.take (4 - s.headerBuf.length)⟩
             (ring.drop (4 - s.headerBuf.length)) with
         | Sum.inl (s', r'') => (s', r'', acc)
         | Sum.inr (s', r'', m) => pumpLoop fuel s' r'' (acc ++ [m])) := by
  simp only [pumpLoop]
  rw [if_pos hrh]
  have hmin : min (4 - s.headerBuf.length) ring.length = 4 - s.headerBuf.length :=
    Nat.min_eq_left h
  rw [hmin]
  rw [if_neg (by rw [List.length_append, List.length_take]; omega)]

theorem pumpLoop_header_dispatch (fuel : Nat) (s : FramerState) (ring : List Nat)
    (acc : List (Nat × List Nat)) (hrh : s.readingHeader = true)
    (hhb : s.headerBuf.length ≤ 3) (h : 4 - s.headerBuf.length ≤ ring.length) :
    pumpLoop (fuel + 1) s ring acc =
      headerDispatch fuel s (s.headerBuf ++ ring.take (4 - s.headerBuf.length))
        (ring.drop (4 - s.headerBuf.length)) acc := by
  rw [pumpLoop_header_complete fuel s ring acc hrh hhb h]
  rfl

theorem pumpLoop_body_starved (fuel : Nat) (s : FramerState) (ring : List Nat)
    (acc : List (Nat × List Nat)) (hrh : s.readingHeader = false)
    (h4 : 4 ≤ s.messageBuf.length)
    (h : ring.length < s.messageExpected - (s.messageBuf.length - 4)) :
    pumpLoop (fuel + 1) s ring acc
      = ({ s with messageBuf := s.messageBuf ++ ring }, [], acc) := by
  simp only [pumpLoop]
  rw [if_neg (by rw [hrh]; simp)]
  rw [bodyPhase_starved s ring h4 h]

theorem pumpLoop_body_complete (fuel : Nat) (s : FramerState) (ring : List Nat)
    (acc : List (Nat × List Nat)) (hrh : s.readingHeader = false)
    (h4 : 4 ≤ s.messageBuf.length)
    (hle : s.messageBuf.length - 4 ≤ s.messageExpected)
    (h : s.messageExpected - (s.messageBuf.length - 4) ≤ ring.length) :
    pumpLoop (fuel + 1) s ring acc =
      pumpLoop fuel
        { s with
            readingHeader := true
            messageBuf := s.messageBuf
              ++ ring.take (s.messageExpected - (s.messageBuf.length - 4)) }
        (ring.drop (s.messageExpected - (s.messageBuf.length - 4)))
        (acc ++ [((s.messageBuf
              ++ ring.take (s.messageExpected - (s.messageBuf.length - 4))).getD 0 0,
            s.messageBuf
              ++ ring.take (s.messageExpected - (s.messageBuf.length - 4)))]) := by
  simp only [pumpLoop]
  rw [if_neg (by rw [hrh]; simp)]
  rw [bodyPhase_complete s ring h4 hle h]

theorem FramerInv_header (s : FramerState) (X : List Nat) (hrh : s.readingHeader = true)
    (hX : X.length ≤ 3) : FramerInv { s with headerBuf := X } := by
  constructor
  · intro _
    exact hX
  · intro hh
    rw [show ({ s with headerBuf := X } : FramerState).readingHeader
        = s.readingHeader from rfl, hrh] at hh
    exact Bool.noConfusion hh

theorem FramerInv_emit (s : FramerState) (X : List Nat) (hhb : s.headerBuf = []) :
    FramerInv { s with readingHeader := true, messageBuf := X } := by
  constructor
  · intro _
    show s.headerBuf.length ≤ 3
    simp [hhb]
  · intro hh
    exact Bool.noConfusion hh

theorem FramerInv_bodyState (s : FramerState) (X : List Nat) (hrh : s.readingHeader = false)
    (hhb : s.headerBuf = []) (h4 : 4 ≤ X.length) (hlt : X.length - 4 < s.messageExpected) :
    FramerInv { s with messageBuf := X } := by
  constructor
  · intro hh
    rw [show ({ s with messageBuf := X } : FramerState).readingHeader
        = s.readingHeader from rfl, hrh] at hh
    exact Bool.noConfusion hh
  · intro _
    exact ⟨hhb, h4, hlt⟩

/-- The loop always drains the ring (so leftover bytes never carry over to the
    next processReceivedData call), and the loop-boundary invariant is
    preserved, whenever the fuel exceeds the ring size. -/
theorem pumpLoop_fuel : ∀ (fuel : Nat) (s : FramerState) (ring : List Nat)
    (acc : List (Nat × List Nat)), FramerInv s → ring.length < fuel →
    (pumpLoop fuel s ring acc).2.1 = [] ∧ FramerInv (pumpLoop fuel s ring acc).1 := by
  intro fuel
  induction fuel with
  | zero => intro s ring acc _ h; omega
  | succ fuel ih =>
    intro s ring acc hinv hfl
    obtain ⟨h1, h2⟩ := hinv
    cases hrh : s.readingHeader
    · -- awaiting body
      obtain ⟨hhb, h4, hlt⟩ := h2 hrh
      rcases Nat.lt_or_ge ring.length (s.messageExpected - (s.messageBuf.length - 4))
        with h | h
      · rw [pumpLoop_body_starved fuel s ring acc hrh h4 h]
        refine ⟨rfl, FramerInv_bodyState s _ hrh hhb ?_ ?_⟩
        · show 4 ≤ (s.messageBuf ++ ring).length
          rw [List.length_append]
          omega
        · show (s.messageBuf ++ ring).length - 4 < s.messageExpected
          rw [List.length_append]
          omega
      · rw [pumpLoop_body_complete fuel s ring acc hrh h4 (by omega) h]
        refine ih _ _ _ (FramerInv_emit s _ hhb) ?_
        rw [List.length_drop]
        omega
    · -- awaiting header
      have hhb := h1 hrh
      rcases Nat.lt_or_ge ring.length (4 - s.headerBuf.length) with h | h
      · rw [pumpLoop_header_starved fuel s ring acc hrh hhb h]
        exact ⟨rfl, FramerInv_header s _ hrh (by rw [List.length_append]; omega)⟩
      · rw [pumpLoop_header_complete fuel s ring acc hrh hhb h]
        have hhblen : (s.headerBuf ++ ring.take (4 - s.headerBuf.length)).length = 4 := by
          rw [List.length_append, List.length_take]
          omega
        by_cases hfv :
            headerFlagsValid (s.headerBuf ++ ring.take (4 - s.headerBuf.length)) = false
        · rw [if_pos hfv]
          refine ih _ _ _ (FramerInv_header s _ hrh (by rw [List.length_drop]; omega)) ?_
          rw [List.length_drop]
          omega
        · rw [if_neg hfv]
          by_cases hil :
              headerInvalidLength (s.headerBuf ++ ring.take (4 - s.headerBuf.length)) = true
          · rw [if_pos hil]
            refine ih _ _ _ (FramerInv_header s [] hrh (by simp)) ?_
            rw [List.length_drop]
            omega
          · rw [if_neg hil]
            rcases Nat.lt_or_ge (ring.drop (4 - s.headerBuf.length)).length
                (headerEncLen (s.headerBuf ++ ring.take (4 - s.headerBuf.length)))
              with hb2 | hb2
            · rw [bodyPhase_starved _ _ (show 4 ≤
                  (s.headerBuf ++ ring.take (4 - s.headerBuf.length)).length by omega)
                (show (ring.drop (4 - s.headerBuf.length)).length <
                  headerEncLen (s.headerBuf ++ ring.take (4 - s.headerBuf.length))
                    - ((s.headerBuf ++ ring.take (4 - s.headerBuf.length)).length - 4) by
                  rw [hhblen]; simpa using hb2)]
              refine ⟨rfl, FramerInv_bodyState _ _ rfl rfl ?_ ?_⟩
              · show 4 ≤ ((s.headerBuf ++ ring.take (4 - s.headerBuf.length))
                    ++ ring.drop (4 - s.headerBuf.length)).length
                rw [List.length_append]
                omega
              · show ((s.headerBuf ++ ring.take (4 - s.headerBuf.length))
                    ++ ring.drop (4 - s.headerBuf.length)).length - 4
                  < headerEncLen (s.headerBuf ++ ring.take (4 - s.headerBuf.length))
                rw [List.length_append, hhblen]
                omega
            · rw [bodyPhase_complete _ _ (show 4 ≤
                  (s.headerBuf ++ ring.take (4 - s.headerBuf.length)).length by omega)
                (show (s.headerBuf ++ ring.take (4 - s.headerBuf.length)).length - 4
                  ≤ headerEncLen (s.headerBuf ++ ring.take (4 - s.headerBuf.length)) by
                  rw [hhblen]; omega)
                (show headerEncLen (s.headerBuf ++ ring.take (4 - s.headerBuf.length))
                    - ((s.headerBuf ++ ring.take (4 - s.headerBuf.length)).length - 4)
                  ≤ (ring.drop (4 - s.headerBuf.length)).length by
                  rw [hhblen]; simpa using hb2)]
              refine ih _ _ _ (FramerInv_emit _ _ rfl) ?_
              show ((ring.drop (4 - s.headerBuf.length)).drop
                  (headerEncLen (s.headerBuf ++ ring.take (4 - s.headerBuf.length))
                    - ((s.headerBuf ++ ring.take (4 - s.headerBuf.length)).length - 4))).length
                < fuel
              rw [List.length_drop, List.length_drop]
              omega

/-- Any fuel beyond the ring size gives the same result. -/
theorem pumpLoop_fuel_irrel : ∀ (f1 : Nat) (f2 : Nat) (s : FramerState) (ring : List Nat)
    (acc : List (Nat × List Nat)), FramerInv s → ring.length < f1 → ring.length < f2 →
    pumpLoop f1 s ring acc = pumpLoop f2 s ring acc := by
  intro f1
  induction f1 with
  | zero => intro f2 s ring acc _ h _; omega
  | succ f1 ih =>
    intro f2 s ring acc hinv hf1 hf2
    obtain ⟨h1, h2⟩ := hinv
    cases f2 with
    | zero => omega
    | succ f2 =>
      cases hrh : s.readingHeader
      · obtain ⟨hhb, h4, hlt⟩ := h2 hrh
        rcases Nat.lt_or_ge ring.length (s.messageExpected - (s.messageBuf.length - 4))
          with h | h
        · rw [pumpLoop_body_starved f1 s ring acc hrh h4 h,
            pumpLoop_body_starved f2 s ring acc hrh h4 h]
        · rw [pumpLoop_body_complete f1 s ring acc hrh h4 (by omega) h,
            pumpLoop_body_complete f2 s ring acc hrh h4 (by omega) h]
          refine ih f2 _ _ _ (FramerInv_emit s _ hhb) ?_ ?_ <;>
            (rw [List.length_drop]; omega)
      · have hhb := h1 hrh
        rcases Nat.lt_or_ge ring.length (4 - s.headerBuf.length) with h | h
        · rw [pumpLoop_header_starved f1 s ring acc hrh hhb h,
            pumpLoop_header_starved f2 s ring acc hrh hhb h]
        · rw [pumpLoop_header_complete f1 s ring acc hrh hhb h,
            pumpLoop_header_complete f2 s ring acc hrh hhb h]
          have hhblen : (s.headerBuf ++ ring.take (4 - s.headerBuf.length)).length = 4 := by
            rw [List.length_append, List.length_take]
            omega
          by_cases hfv :
              headerFlagsValid (s.headerBuf ++ ring.take (4 - s.headerBuf.length)) = false
          · rw [if_pos hfv, if_pos hfv]
            refine ih f2 _ _ _ (FramerInv_header s _ hrh (by rw [List.length_drop]; omega))
              ?_ ?_ <;> (rw [List.length_drop]; omega)
          · rw [if_neg hfv, if_neg hfv]
            by_cases hil :
                headerInvalidLength (s.headerBuf ++ ring.take (4 - s.headerBuf.length)) = true
            · rw [if_pos hil, if_pos hil]
              refine ih f2 _ _ _ (FramerInv_header s [] hrh (by simp)) ?_ ?_ <;>
                (rw [List.length_drop]; omega)
            · rw [if_neg hil, if_neg hil]
              rcases Nat.lt_or_ge (ring.drop (4 - s.headerBuf.length)).length
                  (headerEncLen (s.headerBuf ++ ring.take (4 - s.headerBuf.length)))
                with hb2 | hb2
              · rw [bodyPhase_starved _ _ (show 4 ≤
                    (s.headerBuf ++ ring.take (4 - s.headerBuf.length)).length by omega)
                  (show (ring.drop (4 - s.headerBuf.length)).length <
                    headerEncLen (s.headerBuf ++ ring.take (4 - s.headerBuf.length))
                      - ((s.headerBuf ++ ring.take (4 - s.headerBuf.length)).length - 4) by
                    rw [hhblen]; simpa using hb2)]
              · rw [bodyPhase_complete _ _ (show 4 ≤
                    (s.headerBuf ++ ring.take (4 - s.headerBuf.length)).length by omega)
                  (show (s.headerBuf ++ ring.take (4 - s.headerBuf.length)).length - 4
                    ≤ headerEncLen (s.headerBuf ++ ring.take (4 - s.headerBuf.length)) by
                    rw [hhblen]; omega)
                  (show headerEncLen (s.headerBuf ++ ring.take (4 - s.headerBuf.length))
                      - ((s.headerBuf ++ ring.take (4 - s.headerBuf.length)).length - 4)
                    ≤ (ring.drop (4 - s.headerBuf.length)).length by
                    rw [hhblen]; simpa using hb2)]
                refine ih f2 _ _ _ (FramerInv_emit _ _ rfl) ?_ ?_ <;>
                  (show ((ring.drop (4 - s.headerBuf.length)).drop
                      (headerEncLen (s.headerBuf ++ ring.take (4 - s.headerBuf.length))
                        - ((s.headerBuf ++ ring.take (4 - s.headerBuf.length)).length - 4))).length
                    < _
                   rw [List.length_drop, List.length_drop]
                   omega)

/-- The continuation after a completed header does not depend on the fuel
    (beyond the ring size) nor on the stale header accumulator of the state. -/
theorem headerDispatch_eq (f1 f2 : Nat) (s1 s2 : FramerState) (HB R : List Nat)
    (acc : List (Nat × List Nat)) (hHB : HB.length = 4)
    (hrh : s1.readingHeader = true)
    (hagree : ({ s1 with headerBuf := ([] : List Nat) } : FramerState)
        = { s2 with headerBuf := ([] : List Nat) })
    (hf1 : R.length < f1) (hf2 : R.length < f2) :
    headerDispatch f1 s1 HB R acc = headerDispatch f2 s2 HB R acc := by
  rcases s1 with ⟨r1, b1, e1, m1⟩
  rcases s2 with ⟨r2, b2, e2, m2⟩
  obtain ⟨hr, he, hm⟩ : r1 = r2 ∧ e1 = e2 ∧ m1 = m2 := by
    have h := hagree
    simp only [FramerState.mk.injEq] at h
    exact ⟨h.1, h.2.2⟩
  subst hr
  subst he
  subst hm
  have hrh1 : r1 = true := hrh
  subst hrh1
  simp only [headerDispatch]
  by_cases hfv : headerFlagsValid HB = false
  · rw [if_pos hfv, if_pos hfv]
    exact pumpLoop_fuel_irrel f1 f2 _ R acc
      ⟨fun _ => by show (HB.drop 1).length ≤ 3; rw [List.length_drop, hHB],
       fun hh => Bool.noConfusion hh⟩ hf1 hf2
  · rw [if_neg hfv, if_neg hfv]
    by_cases hil : headerInvalidLength HB = true
    · rw [if_pos hil, if_pos hil]
      exact pumpLoop_fuel_irrel f1 f2 _ R acc
        ⟨fun _ => by show ([] : List Nat).length ≤ 3; simp,
         fun hh => Bool.noConfusion hh⟩ hf1 hf2
    · rw [if_neg hil, if_neg hil]
      rcases Nat.lt_or_ge R.length (headerEncLen HB) with hb2 | hb2
      · rw [bodyPhase_starved ⟨false, [], headerEncLen HB, HB⟩ R
          (show 4 ≤ HB.length by omega)
          (show R.length < headerEncLen HB - (HB.length - 4) by rw [hHB]; simpa using hb2)]
      · rw [bodyPhase_complete ⟨false, [], headerEncLen HB, HB⟩ R
          (show 4 ≤ HB.length by omega)
          (show HB.length - 4 ≤ headerEncLen HB by rw [hHB]; omega)
          (show headerEncLen HB - (HB.length - 4) ≤ R.length by rw [hHB]; simpa using hb2)]
        exact pumpLoop_fuel_irrel f1 f2 _ _ _ (FramerInv_emit _ _ rfl)
          (show ((R.drop (headerEncLen HB - (HB.length - 4)))).length < f1 by
            rw [List.length_drop]; omega)
          (show ((R.drop (headerEncLen HB - (HB.length - 4)))).length < f2 by
            rw [List.length_drop]; omega)

theorem pumpLoop_nil (fuel : Nat) (s : FramerState) (acc : List (Nat × List Nat))
    (hinv : FramerInv s) : pumpLoop fuel s [] acc = (s, [], acc) := by
  obtain ⟨h1, h2⟩ := hinv
  cases fuel with
  | zero => rfl
  | succ fuel =>
    cases hrh : s.readingHeader
    · obtain ⟨hhb, h4, hlt⟩ := h2 hrh
      rw [pumpLoop_body_starved fuel s [] acc hrh h4 (by simp; omega)]
      simp
    · have hhb := h1 hrh
      rw [pumpLoop_header_starved fuel s [] acc hrh hhb (by simp; omega)]
      simp

/-- Incrementality of the framer loop: running on `xs ++ ys` is the same as
    running on `xs` to starvation and then resuming on `ys`.  The induction is
    on a bound `n` for the length of `xs`; the fuel of the first run is
    arbitrary beyond that length. -/
theorem pumpLoop_append : ∀ (n f1 : Nat) (s : FramerState) (xs ys : List Nat)
    (acc : List (Nat × List Nat)), xs.length ≤ n → FramerInv s → xs.length < f1 →
    pumpLoop (xs.length + ys.length + 1) s (xs ++ ys) acc
      = pumpLoop (ys.length + 1) (pumpLoop f1 s xs acc).1 ys (pumpLoop f1 s xs acc).2.2 := by
  intro n
  induction n with
  | zero =>
      intro f1 s xs ys acc hn hinv hf1
      have hxs : xs = [] := List.length_eq_zero.mp (by omega)
      subst hxs
      rw [pumpLoop_nil f1 s acc hinv]
      show pumpLoop (List.length [] + ys.length + 1) s ([] ++ ys) acc
        = pumpLoop (ys.length + 1) s ys acc
      rw [List.nil_append]
      have hz : List.length ([] : List Nat) + ys.length + 1 = ys.length + 1 := by simp
      rw [hz]
  | succ n ihn =>
      intro f1 s xs ys acc hn hinv hf1
      obtain ⟨h1, h2⟩ := hinv
      rcases f1 with _ | f1
      · omega
      cases hrh : s.readingHeader
      -- ===== awaiting body =====
      · obtain ⟨hhb, h4, hlt⟩ := h2 hrh
        rcases Nat.lt_or_ge xs.length (s.messageExpected - (s.messageBuf.length - 4))
          with hx | hx
        · -- the xs run starves in the body
          rw [pumpLoop_body_starved f1 s xs acc hrh h4 hx]
          show pumpLoop (xs.length + ys.length + 1) s (xs ++ ys) acc
            = pumpLoop (ys.length + 1) { s with messageBuf := s.messageBuf ++ xs } ys acc
          rcases Nat.lt_or_ge (xs.length + ys.length)
              (s.messageExpected - (s.messageBuf.length - 4)) with hxy | hxy
          · rw [pumpLoop_body_starved (xs.length + ys.length) s (xs ++ ys) acc hrh h4
              (by rw [List.length_append]; omega)]
            rw [pumpLoop_body_starved ys.length { s with messageBuf := s.messageBuf ++ xs }
              ys acc
              (show ({ s with messageBuf := s.messageBuf ++ xs } : FramerState).readingHeader
                = false from hrh)
              (show 4 ≤ (s.messageBuf ++ xs).length by rw [List.length_append]; omega)
              (show ys.length < s.messageExpected - ((s.messageBuf ++ xs).length - 4) by
                rw [List.length_append]; omega)]
            simp [List.append_assoc]
          · rw [pumpLoop_body_complete (xs.length + ys.length) s (xs ++ ys) acc hrh h4
              (by omega) (by rw [List.length_append]; omega)]
            rw [pumpLoop_body_complete ys.length { s with messageBuf := s.messageBuf ++ xs }
              ys acc
              (show ({ s with messageBuf := s.messageBuf ++ xs } : FramerState).readingHeader
                = false from hrh)
              (show 4 ≤ (s.messageBuf ++ xs).length by rw [List.length_append]; omega)
              (show (s.messageBuf ++ xs).length - 4 ≤ s.messageExpected by
                rw [List.length_append]; omega)
              (show s.messageExpected - ((s.messageBuf ++ xs).length - 4) ≤ ys.length by
                rw [List.length_append]; omega)]
            rw [show ({ s with messageBuf := s.messageBuf ++ xs } : FramerState).messageExpected
                = s.messageExpected from rfl,
              show ({ s with messageBuf := s.messageBuf ++ xs } : FramerState).messageBuf
                = s.messageBuf ++ xs from rfl]
            have hN : s.messageExpected - ((s.messageBuf ++ xs).length - 4)
                = s.messageExpected - (s.messageBuf.length - 4) - xs.length := by
              rw [List.length_append]
              omega
            rw [hN]
            have he : s.messageExpected - (s.messageBuf.length - 4)
                = xs.length + (s.messageExpected - (s.messageBuf.length - 4) - xs.length) := by
              omega
            have htk : (xs ++ ys).take (s.messageExpected - (s.messageBuf.length - 4))
                = xs ++ ys.take (s.messageExpected - (s.messageBuf.length - 4) - xs.length) := by
              conv_lhs => rw [he]
              rw [List.take_append]
            have hdr : (xs ++ ys).drop (s.messageExpected - (s.messageBuf.length - 4))
                = ys.drop (s.messageExpected - (s.messageBuf.length - 4) - xs.length) := by
              conv_lhs => rw [he]
              rw [List.drop_append]
            rw [htk, hdr, ← List.append_assoc]
            exact pumpLoop_fuel_irrel (xs.length + ys.length) ys.length _ _ _
              (FramerInv_emit s _ hhb)
              (by rw [List.length_drop]; omega)
              (by rw [List.length_drop]; omega)
        · -- the xs run completes the body and the loop continues inside xs
          rw [pumpLoop_body_complete f1 s xs acc hrh h4 (by omega) hx]
          rw [pumpLoop_body_complete (xs.length + ys.length) s (xs ++ ys) acc hrh h4
            (by omega) (by rw [List.length_append]; omega)]
          have htk : (xs ++ ys).take (s.messageExpected - (s.messageBuf.length - 4))
              = xs.take (s.messageExpected - (s.messageBuf.length - 4)) :=
            List.take_append_of_le_length hx
          have hdr : (xs ++ ys).drop (s.messageExpected - (s.messageBuf.length - 4))
              = xs.drop (s.messageExpected - (s.messageBuf.length - 4)) ++ ys :=
            List.drop_append_of_le_length hx
          rw [htk, hdr]
          refine Eq.trans (pumpLoop_fuel_irrel (xs.length + ys.length)
              ((xs.drop (s.messageExpected - (s.messageBuf.length - 4))).length
                + ys.length + 1) _ _ _
              (FramerInv_emit s _ hhb)
              (by rw [List.length_append, List.length_drop]; omega)
              (by rw [List.length_append, List.length_drop]; omega))
            (ihn f1 _ _ ys _ (by rw [List.length_drop]; omega)
              (FramerInv_emit s _ hhb) (by rw [List.length_drop]; omega))
      -- ===== awaiting header =====
      · have hhb := h1 hrh
        rcases Nat.lt_or_ge xs.length (4 - s.headerBuf.length) with hx | hx
        · -- the xs run starves in the header
          rw [pumpLoop_header_starved f1 s xs acc hrh hhb hx]
          show pumpLoop (xs.length + ys.length + 1) s (xs ++ ys) acc
            = pumpLoop (ys.length + 1) { s with headerBuf := s.headerBuf ++ xs } ys acc
          rcases Nat.lt_or_ge (xs.length + ys.length) (4 - s.headerBuf.length) with hxy | hxy
          · rw [pumpLoop_header_starved (xs.length + ys.length) s (xs ++ ys) acc hrh hhb
              (by rw [List.length_append]; omega)]
            rw [pumpLoop_header_starved ys.length { s with headerBuf := s.headerBuf ++ xs }
              ys acc
              (show ({ s with headerBuf := s.headerBuf ++ xs } : FramerState).readingHeader
                = true from hrh)
              (show (s.headerBuf ++ xs).length ≤ 3 by rw [List.length_append]; omega)
              (show ys.length < 4 - (s.headerBuf ++ xs).length by
                rw [List.length_append]; omega)]
            simp [List.append_assoc]
          · -- the combined run completes the header inside ys
            rw [pumpLoop_header_dispatch (xs.length + ys.length) s (xs ++ ys) acc hrh hhb
              (by rw [List.length_append]; omega)]
            rw [pumpLoop_header_dispatch ys.length { s with headerBuf := s.headerBuf ++ xs }
              ys acc
              (show ({ s with headerBuf := s.headerBuf ++ xs } : FramerState).readingHeader
                = true from hrh)
              (show (s.headerBuf ++ xs).length ≤ 3 by rw [List.length_append]; omega)
              (show 4 - (s.headerBuf ++ xs).length ≤ ys.length by
                rw [List.length_append]; omega)]
            rw [show ({ s with headerBuf := s.headerBuf ++ xs } : FramerState).headerBuf
                = s.headerBuf ++ xs from rfl]
            have hK : 4 - (s.headerBuf ++ xs).length
                = 4 - s.headerBuf.length - xs.length := by
              rw [List.length_append]
              omega
            rw [hK]
            have he : 4 - s.headerBuf.length
                = xs.length + (4 - s.headerBuf.length - xs.length) := by omega
            have htk : (xs ++ ys).take (4 - s.headerBuf.length)
                = xs ++ ys.take (4 - s.headerBuf.length - xs.length) := by
              conv_lhs => rw [he]
              rw [List.take_append]
            have hdr : (xs ++ ys).drop (4 - s.headerBuf.length)
                = ys.drop (4 - s.headerBuf.length - xs.length) := by
              conv_lhs => rw [he]
              rw [List.drop_append]
            rw [htk, hdr, ← List.append_assoc]
            exact headerDispatch_eq (xs.length + ys.length) ys.length s
              { s with headerBuf := s.headerBuf ++ xs } _ _ acc
              (by rw [List.length_append, List.length_append, List.length_take]; omega)
              hrh rfl
              (by rw [List.length_drop]; omega)
              (by rw [List.length_drop]; omega)
        · -- the xs run completes the header
          rw [pumpLoop_header_dispatch f1 s xs acc hrh hhb hx]
          rw [pumpLoop_header_dispatch (xs.length + ys.length) s (xs ++ ys) acc hrh hhb
            (by rw [List.length_append]; omega)]
          have htk : (xs ++ ys).take (4 - s.headerBuf.length)
              = xs.take (4 - s.headerBuf.length) := List.take_append_of_le_length hx
          have hdr : (xs ++ ys).drop (4 - s.headerBuf.length)
              = xs.drop (4 - s.headerBuf.length) ++ ys := List.drop_append_of_le_length hx
          rw [htk, hdr]
          have hHBlen : (s.headerBuf ++ xs.take (4 - s.headerBuf.length)).length = 4 := by
            rw [List.length_append, List.length_take]
            omega
          have hxdl : (xs.drop (4 - s.headerBuf.length)).length
              = xs.length - (4 - s.headerBuf.length) := List.length_drop _ _
          set HB := s.headerBuf ++ xs.take (4 - s.headerBuf.length) with hHBdef
          set xd := xs.drop (4 - s.headerBuf.length) with hxddef
          simp only [headerDispatch]
          by_cases hfv : headerFlagsValid HB = false
          · simp only [if_pos hfv]
            refine Eq.trans (pumpLoop_fuel_irrel (xs.length + ys.length)
                (xd.length + ys.length + 1) _ _ _
                (FramerInv_header s _ hrh (by rw [List.length_drop, hHBlen]))
                (by rw [List.length_append]; omega)
                (by rw [List.length_append]; omega))
              (ihn f1 _ _ ys _ (by omega)
                (FramerInv_header s _ hrh (by rw [List.length_drop, hHBlen]))
                (by omega))
          · simp only [if_neg hfv]
            by_cases hil : headerInvalidLength HB = true
            · simp only [if_pos hil]
              refine Eq.trans (pumpLoop_fuel_irrel (xs.length + ys.length)
                  (xd.length + ys.length + 1) _ _ _
                  (FramerInv_header s [] hrh (by simp))
                  (by rw [List.length_append]; omega)
                  (by rw [List.length_append]; omega))
                (ihn f1 _ _ ys _ (by omega)
                  (FramerInv_header s [] hrh (by simp))
                  (by omega))
            · simp only [if_neg hil]
              rcases Nat.lt_or_ge xd.length (headerEncLen HB) with hb2 | hb2
              · -- the body starves inside xs
                rw [bodyPhase_starved ⟨false, [], headerEncLen HB, HB⟩ xd
                  (show 4 ≤ HB.length by omega)
                  (show xd.length < headerEncLen HB - (HB.length - 4) by
                    rw [hHBlen]; omega)]
                show (match bodyPhase ⟨false, [], headerEncLen HB, HB⟩ (xd ++ ys) with
                  | Sum.inl (s', r'') => (s', r'', acc)
                  | Sum.inr (s', r'', m) =>
                      pumpLoop (xs.length + ys.length) s' r'' (acc ++ [m]))
                  = pumpLoop (ys.length + 1)
                      ⟨false, ([] : List Nat), headerEncLen HB, HB ++ xd⟩ ys acc
                rcases Nat.lt_or_ge (xd.length + ys.length) (headerEncLen HB) with hb3 | hb3
                · rw [bodyPhase_starved ⟨false, [], headerEncLen HB, HB⟩ (xd ++ ys)
                    (show 4 ≤ HB.length by omega)
                    (show (xd ++ ys).length < headerEncLen HB - (HB.length - 4) by
                      rw [List.length_append, hHBlen]; omega)]
                  rw [pumpLoop_body_starved ys.length
                    ⟨false, [], headerEncLen HB, HB ++ xd⟩ ys acc rfl
                    (show 4 ≤ (HB ++ xd).length by rw [List.length_append]; omega)
                    (show ys.length < headerEncLen HB - ((HB ++ xd).length - 4) by
                      rw [List.length_append, hHBlen]; omega)]
                  simp [List.append_assoc]
                · -- the combined run finishes the body inside ys
                  rw [bodyPhase_complete ⟨false, [], headerEncLen HB, HB⟩ (xd ++ ys)
                    (show 4 ≤ HB.length by omega)
                    (show HB.length - 4 ≤ headerEncLen HB by rw [hHBlen]; omega)
                    (show headerEncLen HB - (HB.length - 4) ≤ (xd ++ ys).length by
                      rw [hHBlen, List.length_append]; omega)]
                  rw [pumpLoop_body_complete ys.length
                    ⟨false, [], headerEncLen HB, HB ++ xd⟩ ys acc rfl
                    (show 4 ≤ (HB ++ xd).length by rw [List.length_append]; omega)
                    (show (HB ++ xd).length - 4 ≤ headerEncLen HB by
                      rw [List.length_append, hHBlen]; omega)
                    (show headerEncLen HB - ((HB ++ xd).length - 4) ≤ ys.length by
                      rw [List.length_append, hHBlen]; omega)]
                  dsimp only
                  have hlen1' : headerEncLen HB - ((HB ++ xd).length - 4)
                      = headerEncLen HB - (HB.length - 4) - xd.length := by
                    rw [List.length_append, hHBlen]
                    omega
                  rw [hlen1']
                  have hE4 : headerEncLen HB - (HB.length - 4) = headerEncLen HB := by
                    rw [hHBlen]
                    omega
                  rw [hE4]
                  have he2 : headerEncLen HB
                      = xd.length + (headerEncLen HB - xd.length) := by omega
                  have htk2 : (xd ++ ys).take (headerEncLen HB)
                      = xd ++ ys.take (headerEncLen HB - xd.length) := by
                    conv_lhs => rw [he2]
                    rw [List.take_append]
                  have hdr2 : (xd ++ ys).drop (headerEncLen HB)
                      = ys.drop (headerEncLen HB - xd.length) := by
                    conv_lhs => rw [he2]
                    rw [List.drop_append]
                  rw [htk2, hdr2, ← List.append_assoc]
                  exact pumpLoop_fuel_irrel (xs.length + ys.length) ys.length _ _ _
                    (FramerInv_emit ⟨false, [], headerEncLen HB, HB⟩ _ rfl)
                    (by rw [List.length_drop]; omega)
                    (by rw [List.length_drop]; omega)
              · -- the body finishes inside xs and the loop goes on
                rw [bodyPhase_complete ⟨false, [], headerEncLen HB, HB⟩ xd
                  (show 4 ≤ HB.length by omega)
                  (show HB.length - 4 ≤ headerEncLen HB by rw [hHBlen]; omega)
                  (show headerEncLen HB - (HB.length - 4) ≤ xd.length by
                    rw [hHBlen]; omega)]
                rw [bodyPhase_complete ⟨false, [], headerEncLen HB, HB⟩ (xd ++ ys)
                  (show 4 ≤ HB.length by omega)
                  (show HB.length - 4 ≤ headerEncLen HB by rw [hHBlen]; omega)
                  (show headerEncLen HB - (HB.length - 4) ≤ (xd ++ ys).length by
                    rw [hHBlen, List.length_append]; omega)]
                dsimp only
                have hE4 : headerEncLen HB - (HB.length - 4) = headerEncLen HB := by
                  rw [hHBlen]
                  omega
                rw [hE4]
                have htk2 : (xd ++ ys).take (headerEncLen HB)
                    = xd.take (headerEncLen HB) :=
                  List.take_append_of_le_length hb2
                have hdr2 : (xd ++ ys).drop (headerEncLen HB)
                    = xd.drop (headerEncLen HB) ++ ys :=
                  List.drop_append_of_le_length hb2
                rw [htk2, hdr2]
                refine Eq.trans (pumpLoop_fuel_irrel (xs.length + ys.length)
                    ((xd.drop (headerEncLen HB)).length + ys.length + 1) _ _ _
                    (FramerInv_emit ⟨false, [], headerEncLen HB, HB⟩ _ rfl)
                    (by rw [List.length_append, List.length_drop]; omega)
                    (by rw [List.length_append, List.length_drop]; omega))
                  (ihn f1 _ _ ys _
                    (by rw [List.length_drop]; omega)
                    (FramerInv_emit ⟨false, [], headerEncLen HB, HB⟩ _ rfl)
                    (by rw [List.length_drop]; omega))

/-- The accumulator is threaded through the loop untouched except for
    appending the dispatched messages: running with accumulator `acc` equals
    running with an empty accumulator and prepending `acc` to the result. -/
theorem pumpLoop_acc : ∀ (fuel : Nat) (s : FramerState) (ring : List Nat)
    (acc : List (Nat × List Nat)), FramerInv s →
    pumpLoop fuel s ring acc
      = ((pumpLoop fuel s ring []).1, (pumpLoop fuel s ring []).2.1,
         acc ++ (pumpLoop fuel s ring []).2.2) := by
  intro fuel
  induction fuel with
  | zero =>
      intro s ring acc _
      simp [pumpLoop]
  | succ fuel ih =>
      intro s ring acc hinv
      obtain ⟨h1, h2⟩ := hinv
      cases hrh : s.readingHeader
      · obtain ⟨hhb, h4, hlt⟩ := h2 hrh
        rcases Nat.lt_or_ge ring.length (s.messageExpected - (s.messageBuf.length - 4))
          with h | h
        · rw [pumpLoop_body_starved fuel s ring acc hrh h4 h,
            pumpLoop_body_starved fuel s ring [] hrh h4 h]
          simp
        · rw [pumpLoop_body_complete fuel s ring acc hrh h4 (by omega) h,
            pumpLoop_body_complete fuel s ring [] hrh h4 (by omega) h]
          rw [List.nil_append]
          conv_lhs => rw [ih _ _ _ (FramerInv_emit s _ hhb)]
          conv_rhs => rw [ih _ _ _ (FramerInv_emit s _ hhb)]
          simp [List.append_assoc]
      · have hhb := h1 hrh
        rcases Nat.lt_or_ge ring.length (4 - s.headerBuf.length) with h | h
        · rw [pumpLoop_header_starved fuel s ring acc hrh hhb h,
            pumpLoop_header_starved fuel s ring [] hrh hhb h]
          simp
        · rw [pumpLoop_header_dispatch fuel s ring acc hrh hhb h,
            pumpLoop_header_dispatch fuel s ring [] hrh hhb h]
          have hHBlen : (s.headerBuf ++ ring.take (4 - s.headerBuf.length)).length = 4 := by
            rw [List.length_append, List.length_take]
            omega
          set HB := s.headerBuf ++ ring.take (4 - s.headerBuf.length) with hHBdef
          set rd := ring.drop (4 - s.headerBuf.length) with hrddef
          simp only [headerDispatch]
          by_cases hfv : headerFlagsValid HB = false
          · simp only [if_pos hfv]
            rw [ih _ _ acc (FramerInv_header s _ hrh (by rw [List.length_drop, hHBlen]))]
          · simp only [if_neg hfv]
            by_cases hil : headerInvalidLength HB = true
            · simp only [if_pos hil]
              rw [ih _ _ acc (FramerInv_header s [] hrh (by simp))]
            · simp only [if_neg hil]
              rcases Nat.lt_or_ge rd.length (headerEncLen HB) with hb2 | hb2
              · rw [bodyPhase_starved ⟨false, [], headerEncLen HB, HB⟩ rd
                  (show 4 ≤ HB.length by omega)
                  (show rd.length < headerEncLen HB - (HB.length - 4) by
                    rw [hHBlen]; omega)]
                simp
              · rw [bodyPhase_complete ⟨false, [], headerEncLen HB, HB⟩ rd
                  (show 4 ≤ HB.length by omega)
                  (show HB.length - 4 ≤ headerEncLen HB by rw [hHBlen]; omega)
                  (show headerEncLen HB - (HB.length - 4) ≤ rd.length by
                    rw [hHBlen]; omega)]
                dsimp only
                rw [List.nil_append]
                conv_lhs => rw [ih _ _ _
                  (FramerInv_emit ⟨false, [], headerEncLen HB, HB⟩ _ rfl)]
                conv_rhs => rw [ih _ _ _
                  (FramerInv_emit ⟨false, [], headerEncLen HB, HB⟩ _ rfl)]
                simp [List.append_assoc]

/-- The start state satisfies the loop-boundary invariant. -/
theorem FramerInv_start : FramerInv FramerState.start := by
  decide

/-- A call preserves the loop-boundary invariant. -/
theorem FramerInv_feed (p : FramerState × List (Nat × List Nat)) (d : List Nat)
    (hinv : FramerInv p.1) : FramerInv (feed p d).1 :=
  (pumpLoop_fuel ((d.take (READ_BUFFER_SIZE - 1)).length + 1) p.1
    (d.take (READ_BUFFER_SIZE - 1)) [] hinv (Nat.lt_succ_self _)).2

/-- pumpAll on the empty chunk is a no-op. -/
theorem pumpAll_nil (p : FramerState × List (Nat × List Nat)) (hinv : FramerInv p.1) :
    pumpAll p [] = p := by
  show ((pumpLoop 1 p.1 [] []).1, p.2 ++ (pumpLoop 1 p.1 [] []).2.2) = p
  rw [pumpLoop_nil 1 p.1 [] hinv]
  simp

/-- Splitting the bytes handed to the loop into two consecutive runs does not
    change the resulting state or the accumulated messages. -/
theorem pumpAll_append (p : FramerState × List (Nat × List Nat)) (xs ys : List Nat)
    (hinv : FramerInv p.1) : pumpAll p (xs ++ ys) = pumpAll (pumpAll p xs) ys := by
  show ((pumpLoop ((xs ++ ys).length + 1) p.1 (xs ++ ys) []).1,
        p.2 ++ (pumpLoop ((xs ++ ys).length + 1) p.1 (xs ++ ys) []).2.2)
    = ((pumpLoop (ys.length + 1) (pumpLoop (xs.length + 1) p.1 xs []).1 ys []).1,
       (p.2 ++ (pumpLoop (xs.length + 1) p.1 xs []).2.2)
         ++ (pumpLoop (ys.length + 1) (pumpLoop (xs.length + 1) p.1 xs []).1 ys []).2.2)
  rw [show (xs ++ ys).length = xs.length + ys.length from List.length_append xs ys]
  rw [pumpLoop_append xs.length (xs.length + 1) p.1 xs ys [] le_rfl hinv
    (Nat.lt_succ_self _)]
  rw [pumpLoop_acc (ys.length + 1) _ ys _
    (pumpLoop_fuel (xs.length + 1) p.1 xs [] hinv (Nat.lt_succ_self _)).2]
  dsimp only
  rw [List.append_assoc]

/-- A call whose chunk fits in the ring's free space is not truncated: it is
    exactly the loop on the whole chunk. -/
theorem feed_eq_pumpAll (p : FramerState × List (Nat × List Nat)) (data : List Nat)
    (hlen : data.length ≤ READ_BUFFER_SIZE - 1) : feed p data = pumpAll p data := by
  show ((pumpLoop ((data.take (READ_BUFFER_SIZE - 1)).length + 1) p.1
          (data.take (READ_BUFFER_SIZE - 1)) []).1,
        p.2 ++ (pumpLoop ((data.take (READ_BUFFER_SIZE - 1)).length + 1) p.1
          (data.take (READ_BUFFER_SIZE - 1)) []).2.2)
    = pumpAll p data
  rw [List.take_of_length_le hlen]
  rfl

/-- Feeding a stream one byte per call runs the loop on the whole stream:
    single-byte chunks are never truncated by the ring write. -/
theorem feedAll_singletons : ∀ (data : List Nat)
    (p : FramerState × List (Nat × List Nat)), FramerInv p.1 →
    feedAll p (data.map fun b => [b]) = pumpAll p data := by
  intro data
  induction data with
  | nil =>
      intro p hinv
      show p = pumpAll p []
      exact (pumpAll_nil p hinv).symm
  | cons b bs ih =>
      intro p hinv
      show feedAll (feed p [b]) (bs.map fun b => [b]) = pumpAll p (b :: bs)
      rw [show feed p [b] = pumpAll p [b] from rfl]
      rw [ih (pumpAll p [b]) (pumpLoop_fuel 2 p.1 [b] [] hinv (by simp)).2]
      rw [show (b :: bs) = [b] ++ bs from rfl]
      exact (pumpAll_append p [b] bs hinv).symm

/-- The length of k concatenated 4-byte frames. -/
theorem flatten_replicate_frame_length : ∀ k : Nat,
    (List.flatten (List.replicate k ([6, 8, 0, 0] : List Nat))).length = 4 * k := by
  intro k
  induction k with
  | zero => rfl
  | succ k ih =>
      rw [List.replicate_succ, List.flatten_cons, List.length_append, ih,
        show ([6, 8, 0, 0] : List Nat).length = 4 from rfl]
      omega

/-- Processing one valid zero-length frame from a header-awaiting state with
    an empty header accumulator emits exactly the one 4-byte message and
    returns to such a state (the stale body fields do not matter). -/
theorem pumpLoop_one_frame (e : Nat) (m : List Nat) (acc : List (Nat × List Nat)) :
    pumpLoop 5 ⟨true, [], e, m⟩ [6, 8, 0, 0] acc
      = (⟨true, [], 0, [6, 8, 0, 0]⟩, [], acc ++ [((6 : Nat), [6, 8, 0, 0])]) := by
  rw [pumpLoop_header_dispatch 4 ⟨true, [], e, m⟩ [6, 8, 0, 0] acc rfl (by simp)
    (by simp)]
  show headerDispatch 4 ⟨true, [], e, m⟩ [6, 8, 0, 0] [] acc = _
  simp only [headerDispatch]
  rw [if_neg (by decide), if_neg (by decide)]
  rw [show bodyPhase ⟨false, [], headerEncLen [6, 8, 0, 0], [6, 8, 0, 0]⟩ []
      = Sum.inr (⟨true, [], 0, [6, 8, 0, 0]⟩, ([] : List Nat),
                 ((6 : Nat), [6, 8, 0, 0])) from by decide]
  dsimp only
  rw [pumpLoop_nil 4 ⟨true, [], 0, [6, 8, 0, 0]⟩ (acc ++ [((6 : Nat), [6, 8, 0, 0])])
    (by decide)]

/-- k valid zero-length frames in sequence: the loop emits exactly one message
    per frame and finishes awaiting a header with an empty header
    accumulator. -/
theorem pumpLoop_frames : ∀ (k : Nat) (e : Nat) (m : List Nat)
    (acc : List (Nat × List Nat)),
    ∃ e2 m2, pumpLoop (4 * k + 1) ⟨true, [], e, m⟩
        (List.flatten (List.replicate k [6, 8, 0, 0])) acc
      = (⟨true, [], e2, m2⟩, [], acc ++ List.replicate k ((6 : Nat), [6, 8, 0, 0])) := by
  intro k
  induction k with
  | zero =>
      intro e m acc
      refine ⟨e, m, ?_⟩
      show pumpLoop 1 ⟨true, [], e, m⟩ [] acc = (⟨true, [], e, m⟩, [], acc ++ [])
      rw [pumpLoop_nil 1 ⟨true, [], e, m⟩ acc
        ⟨fun _ => by simp, fun h => Bool.noConfusion h⟩]
      rw [List.append_nil]
  | succ k ih =>
      intro e m acc
      obtain ⟨e2, m2, heq⟩ := ih 0 [6, 8, 0, 0] (acc ++ [((6 : Nat), [6, 8, 0, 0])])
      refine ⟨e2, m2, ?_⟩
      have hfl : 4 * (k + 1) + 1
          = ([6, 8, 0, 0] : List Nat).length
            + (List.flatten (List.replicate k ([6, 8, 0, 0] : List Nat))).length + 1 := by
        rw [flatten_replicate_frame_length,
          show ([6, 8, 0, 0] : List Nat).length = 4 from rfl]
        omega
      rw [List.replicate_succ, List.flatten_cons, hfl]
      rw [pumpLoop_append 4 5 ⟨true, [], e, m⟩ [6, 8, 0, 0]
        (List.flatten (List.replicate k [6, 8, 0, 0])) acc (by decide)
        ⟨fun _ => by simp, fun h => Bool.noConfusion h⟩ (by decide)]
      rw [pumpLoop_one_frame e m acc]
      dsimp only
      rw [show (List.flatten (List.replicate k ([6, 8, 0, 0] : List Nat))).length + 1
          = 4 * k + 1 from by rw [flatten_replicate_frame_length]]
      rw [heq]
      rw [List.append_assoc, List.singleton_append, List.replicate_succ]

/-! ## Claim theorems: dispatcher and USB write -/

/-- C1 (code behavior at the failing input): 65 consecutive high-priority
    dispatches against the High queue of capacity 64 with no consumer.  The
    source pops the oldest entry on overflow but never enqueues the 65th
    message, so only 63 messages remain: both the first message and the 65th
    are missing, while the drop counter is 1 and the dispatched counter 64. -/
theorem dispatch_65_high_leaves_63 :
    (ChannelDispatcher.init.dispatchList
        ((List.range 65).map fun i => ((6 : Int), [i]))).stats.audioMessagesDispatched = 64
  ∧ (ChannelDispatcher.init.dispatchList
        ((List.range 65).map fun i => ((6 : Int), [i]))).stats.audioQueueDrops = 1
  ∧ (ChannelDispatcher.init.dispatchList
        ((List.range 65).map fun i => ((6 : Int), [i]))).audioQueue.queue.length = 63
  ∧ (ChannelDispatcher.init.dispatchList
        ((List.range 65).map fun i => ((6 : Int), [i]))).audioQueue.queue
      = (List.range 63).map (fun i => { channel := (6 : Int), data := [i + 1] })
  ∧ ({ channel := (6 : Int), data := [(64 : Nat)] } : QueuedMessage)
      ∉ (ChannelDispatcher.init.dispatchList
          ((List.range 65).map fun i => ((6 : Int), [i]))).audioQueue.queue := by
  refine ⟨by decide, by decide, by decide, by decide, by decide⟩

/-- C2 counterexample: 33 dispatches on channel 0 (Normal class, capacity 32).
    The control dispatched counter reads 33, yet only 32 of those calls actually
    enqueued a message (the 33rd hit a full queue and was discarded, and the
    overflow also popped an older entry, leaving 31 in the queue); moreover the
    Stats struct carries no control drop counter at all. -/
theorem control_dispatched_ne_enqueued :
    (ChannelDispatcher.init.dispatchList
        ((List.range 33).map fun i => ((0 : Int), [i]))).stats.controlMessagesDispatched = 33
  ∧ controlEnqueues ChannelDispatcher.init ((List.range 33).map fun i => ((0 : Int), [i])) = 32
  ∧ (ChannelDispatcher.init.dispatchList
        ((List.range 33).map fun i => ((0 : Int), [i]))).controlQueue.queue.length = 31 := by
  refine ⟨by decide, by decide, by decide⟩

/-- C2 (amended): starting from any dispatcher state whose queues are not shut
    down, the High and Medium dispatched counters count exactly the messages
    actually enqueued and their drop counters count exactly the full-queue
    overflows; the Normal (control) dispatched counter counts every NORMAL
    dispatch call, including those that hit a full queue and enqueued nothing,
    and no drop counter exists for the Normal class. -/
theorem getStats_counters_characterization (d : ChannelDispatcher)
    (calls : List (Int × List Nat))
    (ha : d.audioQueue.shutdown = false) (hv : d.videoQueue.shutdown = false)
    (hc : d.controlQueue.shutdown = false) :
    (d.dispatchList calls).stats.audioMessagesDispatched
        = d.stats.audioMessagesDispatched + audioEnqueues d calls
  ∧ (d.dispatchList calls).stats.audioQueueDrops
        = d.stats.audioQueueDrops + audioOverflows d calls
  ∧ (d.dispatchList calls).stats.videoMessagesDispatched
        = d.stats.videoMessagesDispatched + videoEnqueues d calls
  ∧ (d.dispatchList calls).stats.videoQueueDrops
        = d.stats.videoQueueDrops + videoOverflows d calls
  ∧ (d.dispatchList calls).stats.controlMessagesDispatched
        = d.stats.controlMessagesDispatched + normalCalls calls := by
  induction calls generalizing d with
  | nil =>
      simp [ChannelDispatcher.dispatchList, audioEnqueues, audioOverflows, videoEnqueues,
        videoOverflows, controlEnqueues, normalCalls]
  | cons c rest ih =>
      have hstep := ChannelDispatcher.dispatch_stats_step d c.1 c.2 ha hv hc
      have hsh := ChannelDispatcher.dispatch_queue_shutdowns d c.1 c.2
      have ih' := ih (d.dispatch c.1 c.2) (by rw [hsh.1]; exact ha)
        (by rw [hsh.2.1]; exact hv) (by rw [hsh.2.2]; exact hc)
      have hfold : d.dispatchList (c :: rest) = (d.dispatch c.1 c.2).dispatchList rest := rfl
      rw [hfold]
      refine ⟨?_, ?_, ?_, ?_, ?_⟩
      · rw [ih'.1, hstep.1, audioEnqueues]; omega
      · rw [ih'.2.1, hstep.2.1, audioOverflows]; omega
      · rw [ih'.2.2.1, hstep.2.2.1, videoEnqueues]; omega
      · rw [ih'.2.2.2.1, hstep.2.2.2.1, videoOverflows]; omega
      · rw [ih'.2.2.2.2, hstep.2.2.2.2, normalCalls]; omega

/-- Witness for the amended C2 theorem at a concrete run. -/
theorem getStats_counters_characterization_witness :
    (ChannelDispatcher.init.dispatchList [((6 : Int), [1]), ((2 : Int), [2]), ((0 : Int), [3])]
        ).stats.controlMessagesDispatched
      = ChannelDispatcher.init.stats.controlMessagesDispatched
          + normalCalls [((6 : Int), [1]), ((2 : Int), [2]), ((0 : Int), [3])] :=
  (getStats_counters_characterization ChannelDispatcher.init
    [((6 : Int), [1]), ((2 : Int), [2]), ((0 : Int), [3])] rfl rfl rfl).2.2.2.2

/-- C3: round-trip law.  For any interleaving of writes and reads in which
    every write fits in the free space when it executes (equivalently, the
    pending unread bytes never exceed capacity - 1), the bytes returned by the
    reads followed by the bytes still buffered are exactly the bytes passed to
    the writes, in order; in particular once the buffer has been drained the
    reads reproduce the writes exactly. -/
theorem ringBuffer_roundTrip (cap : Nat) (ops : List RingOp) (hcap : 1 ≤ cap)
    (hfit : (RingBuffer.create cap).fits ops = true) :
    ((RingBuffer.create cap).run ops).2 ++ ((RingBuffer.create cap).run ops).1.contents
        = writesConcat ops
  ∧ (((RingBuffer.create cap).run ops).1.contents = [] →
      ((RingBuffer.create cap).run ops).2 = writesConcat ops) := by
  have hwf : RingBuffer.WF (RingBuffer.create cap) := ⟨hcap, hcap, hcap⟩
  have h := RingBuffer.run_spec ops (RingBuffer.create cap) hwf hfit
  have hinit : (RingBuffer.create cap).contents = [] := rfl
  rw [hinit] at h
  refine ⟨by simpa using h.2, fun hemp => ?_⟩
  have h2 := h.2
  rw [hemp] at h2
  simpa using h2

/-- Witness for C3: a concrete wrap-around run on a capacity-4 ring. -/
theorem ringBuffer_roundTrip_witness :
    (RingBuffer.create 4).fits
        [RingOp.write [1, 2, 3], RingOp.read 2, RingOp.write [4, 5], RingOp.read 3] = true
  ∧ ((RingBuffer.create 4).run
        [RingOp.write [1, 2, 3], RingOp.read 2, RingOp.write [4, 5], RingOp.read 3]).2
      = writesConcat
          [RingOp.write [1, 2, 3], RingOp.read 2, RingOp.write [4, 5], RingOp.read 3] := by
  refine ⟨by decide, ?_⟩
  exact (ringBuffer_roundTrip 4
    [RingOp.write [1, 2, 3], RingOp.read 2, RingOp.write [4, 5], RingOp.read 3]
    (by decide) (by decide)).2 (by decide)

/-- C8: a write longer than the free space stores exactly the free-space-sized
    first part of the input, returns that count, raises no error, and leaves
    the previously buffered bytes unchanged. -/
theorem ringBuffer_write_overflow (s : RingBuffer) (data : List Nat) (hwf : s.WF)
    (hover : s.freeSpace < data.length) :
    (s.write data).2 = s.freeSpace
  ∧ (s.write data).1.contents = s.contents ++ data.take s.freeSpace
  ∧ (s.write data).1.capacity = s.capacity
  ∧ (s.write data).1.readPos = s.readPos := by
  have h := RingBuffer.write_spec s data hwf
  have hmin : min data.length s.freeSpace = s.freeSpace := Nat.min_eq_right (by omega)
  rw [hmin] at h
  exact ⟨h.1, h.2.2.2.2, h.2.1, h.2.2.1⟩

/-- Witness for C8: a 3-byte write into 1 byte of free space stores one byte. -/
theorem ringBuffer_write_overflow_witness :
    ((((RingBuffer.create 4).write [1, 2]).1.write [7, 8, 9]).2
        = ((RingBuffer.create 4).write [1, 2]).1.freeSpace)
  ∧ (((RingBuffer.create 4).write [1, 2]).1.write [7, 8, 9]).1.contents
      = ((RingBuffer.create 4).write [1, 2]).1.contents
          ++ [7, 8, 9].take ((RingBuffer.create 4).write [1, 2]).1.freeSpace :=
  ⟨(ringBuffer_write_overflow ((RingBuffer.create 4).write [1, 2]).1 [7, 8, 9]
      (by decide) (by decide)).1,
   (ringBuffer_write_overflow ((RingBuffer.create 4).write [1, 2]).1 [7, 8, 9]
      (by decide) (by decide)).2.1⟩

/-- C7: the synchronous write uses the fixed 1000 ms timeout; a transfer that
    times out yields the partial transferred count (never negative); any other
    non-success status yields a negative result, as does a call before the
    device is open. -/
theorem usb_write_timeout_and_failure :
    WRITE_TIMEOUT_MS = 1000
  ∧ (∀ (bulkOut : Nat → List Nat → BulkTransferResult) (data : List Nat),
      (bulkOut WRITE_TIMEOUT_MS data).rc = LIBUSB_ERROR_TIMEOUT →
        UsbConnection.write true bulkOut data
            = ((bulkOut WRITE_TIMEOUT_MS data).transferred : Int)
        ∧ 0 ≤ UsbConnection.write true bulkOut data)
  ∧ (∀ (bulkOut : Nat → List Nat → BulkTransferResult) (data : List Nat),
      (bulkOut WRITE_TIMEOUT_MS data).rc ≠ LIBUSB_SUCCESS →
      (bulkOut WRITE_TIMEOUT_MS data).rc ≠ LIBUSB_ERROR_TIMEOUT →
        UsbConnection.write true bulkOut data < 0)
  ∧ (∀ (bulkOut : Nat → List Nat → BulkTransferResult) (data : List Nat),
      UsbConnection.write false bulkOut data < 0) := by
  refine ⟨rfl, ?_, ?_, ?_⟩
  · intro bulkOut data h
    have hw : UsbConnection.write true bulkOut data
        = ((bulkOut WRITE_TIMEOUT_MS data).transferred : Int) := by
      unfold UsbConnection.write
      rw [if_neg (by simp), if_neg (by rw [h]; simp [LIBUSB_ERROR_TIMEOUT])]
    exact ⟨hw, by rw [hw]; exact Int.natCast_nonneg _⟩
  · intro bulkOut data h1 h2
    unfold UsbConnection.write
    rw [if_neg (by simp), if_pos ⟨h1, h2⟩]
    norm_num
  · intro bulkOut data
    unfold UsbConnection.write
    rw [if_pos (by simp)]
    norm_num

/-- Witness for C7: a timing-out transfer that moved 5 bytes returns a
    non-negative count, and a write on a closed device is negative. -/
theorem usb_write_timeout_and_failure_witness :
    (0 : Int) ≤ UsbConnection.write true (fun _ _ => { rc := -7, transferred := 5 }) [1, 2]
  ∧ UsbConnection.write false (fun _ _ => { rc := 0, transferred := 2 }) [1] < 0 :=
  ⟨(usb_write_timeout_and_failure.2.1 (fun _ _ => { rc := -7, transferred := 5 }) [1, 2]
      (by decide)).2,
   usb_write_timeout_and_failure.2.2.2 (fun _ _ => { rc := 0, transferred := 2 }) [1]⟩

/-- C10: channel classification is total over all integer ids: 4, 5, 6 map to
    High, 2 maps to Medium, and every other id (microphone 7, ids above 255,
    negative ids, ...) maps to Normal, whose dispatch branch always pushes to
    the control queue and counts the call; no id is rejected. -/
theorem getChannelPriority_total_classification (c : Int) :
    ((c = 4 ∨ c = 5 ∨ c = 6) → getChannelPriority c = ChannelPriority.HIGH)
  ∧ (c = 2 → getChannelPriority c = ChannelPriority.MEDIUM)
  ∧ (c ≠ 2 ∧ c ≠ 4 ∧ c ≠ 5 ∧ c ≠ 6 →
      getChannelPriority c = ChannelPriority.NORMAL
      ∧ ∀ (d : ChannelDispatcher) (data : List Nat),
          (d.dispatch c data).controlQueue = (d.controlQueue.push ⟨c, data⟩).1
          ∧ (d.dispatch c data).stats.controlMessagesDispatched
              = d.stats.controlMessagesDispatched + 1
          ∧ (d.dispatch c data).audioQueue = d.audioQueue
          ∧ (d.dispatch c data).videoQueue = d.videoQueue) := by
  refine ⟨?_, ?_, ?_⟩
  · rintro (rfl | rfl | rfl) <;> rfl
  · rintro rfl; rfl
  · rintro ⟨h2, h4, h5, h6⟩
    have hnorm : getChannelPriority c = ChannelPriority.NORMAL := by
      simp only [getChannelPriority, Channel.isAudio, Channel.isVideo, Channel.ID_AUD,
        Channel.ID_AU1, Channel.ID_AU2, Channel.ID_VID]
      have b6 : (c == (6 : Int)) = false := by simp [h6]
      have b4 : (c == (4 : Int)) = false := by simp [h4]
      have b5 : (c == (5 : Int)) = false := by simp [h5]
      have b2 : (c == (2 : Int)) = false := by simp [h2]
      simp [b2, b4, b5, b6]
    refine ⟨hnorm, fun d data => ?_⟩
    unfold ChannelDispatcher.dispatch
    simp [hnorm]

/-- Witness for C10 at the negative id -5. -/
theorem getChannelPriority_total_classification_witness :
    getChannelPriority (-5) = ChannelPriority.NORMAL
  ∧ (ChannelDispatcher.init.dispatch (-5) [3]).stats.controlMessagesDispatched
      = ChannelDispatcher.init.stats.controlMessagesDispatched + 1 := by
  have h := (getChannelPriority_total_classification (-5)).2.2 (by decide)
  exact ⟨h.1, (h.2 ChannelDispatcher.init [3]).2.1⟩

/-- The messages of a pumpAll run, spelled out (definitional). -/
theorem pumpAll_snd (p : FramerState × List (Nat × List Nat)) (d : List Nat) :
    (pumpAll p d).2 = p.2 ++ (pumpLoop (d.length + 1) p.1 d []).2.2 := rfl

/-- The messages of one call, spelled out (definitional): the loop runs on the
    ring-truncated prefix of the chunk. -/
theorem feed_snd (p : FramerState × List (Nat × List Nat)) (d : List Nat) :
    (feed p d).2
      = p.2 ++ (pumpLoop ((d.take (READ_BUFFER_SIZE - 1)).length + 1) p.1
          (d.take (READ_BUFFER_SIZE - 1)) []).2.2 := rfl

/-- Byte-by-byte processing of the 524288-byte stream of 131072 valid
    zero-length frames: single-byte calls are never truncated, so every frame
    is delivered. -/
theorem framer_bytes_of_big_stream :
    (feedAll (FramerState.start, ([] : List (Nat × List Nat)))
        ((List.flatten (List.replicate 131072 [6, 8, 0, 0])).map fun b => [b])).2
      = List.replicate 131072 ((6 : Nat), [6, 8, 0, 0]) := by
  rw [feedAll_singletons _ _ FramerInv_start]
  rw [pumpAll_snd]
  dsimp only
  rw [List.nil_append]
  rw [show (List.flatten (List.replicate 131072 ([6, 8, 0, 0] : List Nat))).length + 1
      = 4 * 131072 + 1 from by rw [flatten_replicate_frame_length]]
  rw [show FramerState.start = (⟨true, [], 0, []⟩ : FramerState) from rfl]
  obtain ⟨e2, m2, heq⟩ := pumpLoop_frames 131072 0 [] []
  rw [heq]
  dsimp only
  rw [List.nil_append]

/-- The same 524288-byte stream handed to a single call: the ring write keeps
    only the first 524287 bytes, so the last frame is cut to 3 bytes and only
    131071 messages are delivered. -/
theorem framer_single_of_big_stream :
    (feed (FramerState.start, ([] : List (Nat × List Nat)))
        (List.flatten (List.replicate 131072 [6, 8, 0, 0]))).2
      = List.replicate 131071 ((6 : Nat), [6, 8, 0, 0]) := by
  have hsplit : List.flatten (List.replicate 131072 ([6, 8, 0, 0] : List Nat))
      = List.flatten (List.replicate 131071 ([6, 8, 0, 0] : List Nat)) ++ [6, 8, 0, 0] := by
    rw [show (131072 : Nat) = 131071 + 1 from rfl, List.replicate_add,
      List.flatten_append,
      show List.flatten (List.replicate 1 ([6, 8, 0, 0] : List Nat))
        = [6, 8, 0, 0] from rfl]
  have hTlen : (List.flatten (List.replicate 131071 ([6, 8, 0, 0] : List Nat))).length
      = 524284 := by
    rw [flatten_replicate_frame_length]
  have hstored : (List.flatten (List.replicate 131072 ([6, 8, 0, 0] : List Nat))).take
      (READ_BUFFER_SIZE - 1)
      = List.flatten (List.replicate 131071 ([6, 8, 0, 0] : List Nat)) ++ [6, 8, 0] := by
    rw [hsplit]
    rw [show READ_BUFFER_SIZE - 1
        = (List.flatten (List.replicate 131071 ([6, 8, 0, 0] : List Nat))).length + 3
        from by rw [hTlen]; decide]
    rw [List.take_append]
    rw [show ([6, 8, 0, 0] : List Nat).take 3 = [6, 8, 0] from rfl]
  rw [feed_snd]
  dsimp only
  rw [List.nil_append, hstored]
  rw [show (List.flatten (List.replicate 131071 ([6, 8, 0, 0] : List Nat))
        ++ ([6, 8, 0] : List Nat)).length + 1
      = (List.flatten (List.replicate 131071 ([6, 8, 0, 0] : List Nat))).length
        + ([6, 8, 0] : List Nat).length + 1 from by rw [List.length_append]]
  rw [show FramerState.start = (⟨true, [], 0, []⟩ : FramerState) from rfl]
  rw [pumpLoop_append
    (List.flatten (List.replicate 131071 ([6, 8, 0, 0] : List Nat))).length
    ((List.flatten (List.replicate 131071 ([6, 8, 0, 0] : List Nat))).length + 1)
    ⟨true, [], 0, []⟩
    (List.flatten (List.replicate 131071 [6, 8, 0, 0])) [6, 8, 0] []
    le_rfl ⟨fun _ => by simp, fun h => Bool.noConfusion h⟩ (by omega)]
  rw [show (List.flatten (List.replicate 131071 ([6, 8, 0, 0] : List Nat))).length + 1
      = 4 * 131071 + 1 from by rw [flatten_replicate_frame_length]]
  obtain ⟨e2, m2, heq⟩ := pumpLoop_frames 131071 0 [] []
  rw [heq]
  dsimp only
  rw [pumpLoop_header_starved (([6, 8, 0] : List Nat).length) ⟨true, [], e2, m2⟩
    [6, 8, 0] ([] ++ List.replicate 131071 ((6 : Nat), [6, 8, 0, 0])) rfl (by simp)
    (by simp)]
  dsimp only
  rw [List.nil_append]

/-- C4 counterexample (refuting the unbounded claim): a well-formed stream of
    131072 valid zero-length frames is 524288 bytes, one byte more than the
    ring's free space of 524287.  Fed one byte per call nothing is truncated
    and all 131072 messages come out; fed in a single call the ring write
    silently drops the last byte and only 131071 messages come out, so the
    byte-by-byte and single-chunk runs disagree. -/
theorem framer_single_call_truncates :
    (feedAll (FramerState.start, ([] : List (Nat × List Nat)))
        ((List.flatten (List.replicate 131072 [6, 8, 0, 0])).map fun b => [b])).2
      = List.replicate 131072 ((6 : Nat), [6, 8, 0, 0])
  ∧ (feed (FramerState.start, ([] : List (Nat × List Nat)))
        (List.flatten (List.replicate 131072 [6, 8, 0, 0]))).2
      = List.replicate 131071 ((6 : Nat), [6, 8, 0, 0])
  ∧ ¬ (feedAll (FramerState.start, ([] : List (Nat × List Nat)))
        ((List.flatten (List.replicate 131072 [6, 8, 0, 0])).map fun b => [b]))
      = (feed (FramerState.start, ([] : List (Nat × List Nat)))
          (List.flatten (List.replicate 131072 [6, 8, 0, 0]))) := by
  refine ⟨framer_bytes_of_big_stream, framer_single_of_big_stream, ?_⟩
  intro h
  have h2 : (List.replicate 131072 ((6 : Nat), [6, 8, 0, 0])).length
      = (List.replicate 131071 ((6 : Nat), [6, 8, 0, 0])).length := by
    rw [← framer_bytes_of_big_stream, ← framer_single_of_big_stream, h]
  rw [List.length_replicate, List.length_replicate] at h2
  omega

/-- C4 (amended): whenever the stream fits in the receive ring's free space
    (at most READ_BUFFER_SIZE - 1 = 524287 bytes), feeding it one byte per
    call produces the same final state and message sequence as feeding it in a
    single call; scenario B ([10, 8, 0, 5] plus 5 body bytes trickled byte by
    byte) yields exactly the one 9-byte message, only once the 9th byte has
    been supplied and never before.  For longer single calls the ring write
    drops the excess and the equivalence fails. -/
theorem framer_byte_by_byte_refinement (data : List Nat)
    (hcap : data.length ≤ READ_BUFFER_SIZE - 1) :
    feedAll (FramerState.start, ([] : List (Nat × List Nat))) (data.map fun b => [b])
      = feed (FramerState.start, []) data
  ∧ (feed (FramerState.start, ([] : List (Nat × List Nat)))
        [10, 8, 0, 5, 1, 2, 3, 4, 5]).2 = [(10, [10, 8, 0, 5, 1, 2, 3, 4, 5])]
  ∧ ∀ k : Nat, (feedAll (FramerState.start, ([] : List (Nat × List Nat)))
        (([10, 8, 0, 5, 1, 2, 3, 4, 5].take k).map fun b => [b])).2
      = if k < 9 then [] else [(10, [10, 8, 0, 5, 1, 2, 3, 4, 5])] := by
  refine ⟨(feedAll_singletons data _ FramerInv_start).trans
    (feed_eq_pumpAll _ data hcap).symm, by decide, ?_⟩
  intro k
  rcases Nat.lt_or_ge k 9 with hk | hk
  · interval_cases k <;> decide
  · rw [List.take_of_length_le (by simp; omega), if_neg (by omega)]
    decide

/-- Witness for C4 at the scenario-B stream of 9 bytes. -/
theorem framer_byte_by_byte_refinement_witness :
    (feedAll (FramerState.start, ([] : List (Nat × List Nat)))
        ([10, 8, 0, 5, 1, 2, 3, 4, 5].map fun b => [b])
      = feed (FramerState.start, []) [10, 8, 0, 5, 1, 2, 3, 4, 5])
  ∧ (feed (FramerState.start, ([] : List (Nat × List Nat)))
        [10, 8, 0, 5, 1, 2, 3, 4, 5]).2 = [(10, [10, 8, 0, 5, 1, 2, 3, 4, 5])] :=
  ⟨(framer_byte_by_byte_refinement [10, 8, 0, 5, 1, 2, 3, 4, 5] (by decide)).1,
   (framer_byte_by_byte_refinement [10, 8, 0, 5, 1, 2, 3, 4, 5] (by decide)).2.1⟩

/-- C5: when a completed 4-byte header fails the encrypted-flag check, the
    loop continues with exactly the last 3 of the 4 accumulated header bytes
    (only the first byte is discarded) and the remaining input; consequently an
    invalid header [5, 0, 0, 0] immediately followed by the valid zero-length
    header [6, 8, 0, 0] delivers exactly the one 4-byte message. -/
theorem framer_resync_discards_one_byte (fuel : Nat) (s : FramerState)
    (ring : List Nat) (acc : List (Nat × List Nat))
    (hrh : s.readingHeader = true) (hhb : s.headerBuf.length ≤ 3)
    (hlong : 4 - s.headerBuf.length ≤ ring.length)
    (hbad : headerFlagsValid (s.headerBuf ++ ring.take (4 - s.headerBuf.length)) = false) :
    pumpLoop (fuel + 1) s ring acc
      = pumpLoop fuel
          { s with headerBuf :=
              (s.headerBuf ++ ring.take (4 - s.headerBuf.length)).drop 1 }
          (ring.drop (4 - s.headerBuf.length)) acc
  ∧ ((s.headerBuf ++ ring.take (4 - s.headerBuf.length)).drop 1).length = 3
  ∧ (feed (FramerState.start, ([] : List (Nat × List Nat))) [5, 0, 0, 0, 6, 8, 0, 0]).2
      = [(6, [6, 8, 0, 0])] := by
  refine ⟨?_, ?_, by decide⟩
  · rw [pumpLoop_header_dispatch fuel s ring acc hrh hhb hlong]
    simp only [headerDispatch, if_pos hbad]
  · rw [List.length_drop, List.length_append, List.length_take]
    omega

/-- Witness for C5: a fresh framer facing the four flagless bytes 5 0 0 0. -/
theorem framer_resync_discards_one_byte_witness :
    pumpLoop 2 FramerState.start [5, 0, 0, 0] []
      = pumpLoop 1
          { FramerState.start with headerBuf :=
              (FramerState.start.headerBuf
                ++ [5, 0, 0, 0].take (4 - FramerState.start.headerBuf.length)).drop 1 }
          ([5, 0, 0, 0].drop (4 - FramerState.start.headerBuf.length)) []
  ∧ ((FramerState.start.headerBuf
        ++ [5, 0, 0, 0].take (4 - FramerState.start.headerBuf.length)).drop 1).length = 3
  ∧ (feed (FramerState.start, ([] : List (Nat × List Nat))) [5, 0, 0, 0, 6, 8, 0, 0]).2
      = [(6, [6, 8, 0, 0])] :=
  framer_resync_discards_one_byte 1 FramerState.start [5, 0, 0, 0] [] rfl
    (by decide) (by decide) (by decide)

/-- C6: the header [6, 8, 0, 100] (channel 6, encrypted flag 0x08, big-endian
    body length 100) followed by any 100 body bytes makes the framer deliver
    exactly one message: channel 6 with the 104 bytes header-plus-body; channel
    6 is classified HIGH, so dispatching that message enqueues it on the audio
    queue. -/
theorem framer_scenarioA_audio_message (body : List Nat) (hlen : body.length = 100) :
    (feed (FramerState.start, ([] : List (Nat × List Nat))) ([6, 8, 0, 100] ++ body)).2
      = [(6, [6, 8, 0, 100] ++ body)]
  ∧ ([6, 8, 0, 100] ++ body).length = 104
  ∧ getChannelPriority 6 = ChannelPriority.HIGH
  ∧ (ChannelDispatcher.init.dispatch 6 ([6, 8, 0, 100] ++ body)).audioQueue.queue
      = [{ channel := 6, data := [6, 8, 0, 100] ++ body }] := by
  have hdlen : ([6, 8, 0, 100] ++ body).length = 104 := by
    rw [List.length_append, hlen]
    decide
  refine ⟨?_, hdlen, by decide, rfl⟩
  rw [feed_eq_pumpAll (FramerState.start, []) ([6, 8, 0, 100] ++ body)
    (by rw [hdlen]; decide)]
  rw [pumpAll_append (FramerState.start, []) [6, 8, 0, 100] body FramerInv_start]
  rw [show pumpAll (FramerState.start, ([] : List (Nat × List Nat))) [6, 8, 0, 100]
      = ((⟨false, [], 100, [6, 8, 0, 100]⟩ : FramerState),
         ([] : List (Nat × List Nat))) from by decide]
  show ([] ++ (pumpLoop (body.length + 1)
      ⟨false, [], 100, [6, 8, 0, 100]⟩ body []).2.2)
    = [(6, [6, 8, 0, 100] ++ body)]
  rw [List.nil_append, hlen]
  rw [pumpLoop_body_complete 100 ⟨false, [], 100, [6, 8, 0, 100]⟩ body [] rfl
    (by decide) (by decide) (by rw [hlen]; decide)]
  dsimp only
  rw [show (100 : Nat) - (([6, 8, 0, 100] : List Nat).length - 4) = 100 from rfl]
  rw [List.take_of_length_le (show body.length ≤ 100 by omega)]
  rw [List.drop_eq_nil_of_le (show body.length ≤ 100 by omega)]
  rw [pumpLoop_nil 100 _ _ (by exact ⟨fun _ => by simp, fun h => Bool.noConfusion h⟩)]
  dsimp only
  rw [List.nil_append]
  rfl

/-- Witness for C6 with the concrete body of one hundred 7 bytes. -/
theorem framer_scenarioA_audio_message_witness :
    (feed (FramerState.start, ([] : List (Nat × List Nat)))
        ([6, 8, 0, 100] ++ List.replicate 100 7)).2
      = [(6, [6, 8, 0, 100] ++ List.replicate 100 7)]
  ∧ ([6, 8, 0, 100] ++ List.replicate 100 7).length = 104
  ∧ getChannelPriority 6 = ChannelPriority.HIGH
  ∧ (ChannelDispatcher.init.dispatch 6
        ([6, 8, 0, 100] ++ List.replicate 100 7)).audioQueue.queue
      = [{ channel := 6, data := [6, 8, 0, 100] ++ List.replicate 100 7 }] :=
  framer_scenarioA_audio_message (List.replicate 100 7) (by decide)

/-- C9: for every header whose bytes are byte-valued (each less than 256), the
    decoded big-endian body length is at most 65535, so the invalid-length
    branch of the framer (which would clear the whole header accumulator) can
    never be taken. -/
theorem headerEncLen_bounded (hb : List Nat) (hbytes : ∀ b ∈ hb, b < 256) :
    headerEncLen hb ≤ 65535 ∧ headerInvalidLength hb = false := by
  have hg : ∀ i : Nat, hb.getD i 0 ≤ 255 := by
    intro i
    rcases Nat.lt_or_ge i hb.length with h | h
    · have hmem : hb.getD i 0 ∈ hb := by
        rw [getD_eq_getElem hb 0 h]
        exact List.getElem_mem h
      have := hbytes _ hmem
      omega
    · rw [List.getD_eq_getElem?_getD, List.getElem?_eq_none (by omega)]
      decide
  have h2 := hg 2
  have h3 := hg 3
  constructor
  · unfold headerEncLen
    omega
  · unfold headerInvalidLength
    simp only [decide_eq_false_iff_not]
    unfold headerEncLen
    omega

/-- Witness for C9 at the extreme byte-valued header 10 8 255 255. -/
theorem headerEncLen_bounded_witness :
    headerEncLen [10, 8, 255, 255] ≤ 65535
  ∧ headerInvalidLength [10, 8, 255, 255] = false :=
  headerEncLen_bounded [10, 8, 255, 255] (by decide)

end AAH
